import Mathlib

/-!
Verification development for the agent-sync repository.

The definitions below are a shallow embedding of the TypeScript sources
`src/core/mcp-sync.ts`, `src/core/skill-sync.ts`, `src/core/symlink.ts` and
`src/core/config.ts`.  JavaScript objects that result from `JSON.parse` are
modelled by the inductive type `Json` (objects as association lists in
insertion order), file system state by an association list from absolute path
strings to entries, and each `fs.*Sync` call by a small-step primitive that
can fail, either structurally or through an injected fault (modelling an
arbitrary I/O error such as EACCES or ENOSPC thrown by the runtime).
-/

namespace AgentSync

/-- Model of a JavaScript value produced by `JSON.parse`: objects are
association lists in insertion order.  `JSON.parse` produces objects with
unique keys (later duplicates overwrite earlier ones during parsing). -/
inductive Json where
  | null : Json
  | bool (b : Bool) : Json
  | num (n : Int) : Json
  | str (s : String) : Json
  | arr (elems : List Json) : Json
  | obj (fields : List (String × Json)) : Json

/-- Property access `o[k]` on an object, as first-match lookup in the
association list (keys are unique after `JSON.parse`). -/
def lookupField (fields : List (String × Json)) (k : String) : Option Json :=
  match fields with
  | [] => none
  | (k2, v) :: rest => if k2 = k then some v else lookupField rest k

/-- Assignment `o[k] = v` on a JavaScript object: if the key is present its
value is replaced in place (insertion order kept), otherwise the pair is
appended at the end. -/
def objSetKey (fields : List (String × Json)) (k : String) (v : Json) :
    List (String × Json) :=
  if fields.any (fun p => p.1 = k) then
    fields.map (fun p => if p.1 = k then (p.1, v) else p)
  else fields ++ [(k, v)]

/-- Semantics of `Object.assign(target, patch)` on plain objects: every own
key of `patch` is assigned into `target` in order. -/
def objAssign (target patch : List (String × Json)) : List (String × Json) :=
  patch.foldl (fun acc p => objSetKey acc p.1 p.2) target

/-- State of a downstream JSON target file as seen by `patchJsonFile`
(mcp-sync.ts, lines 88-93): the file may be absent, present but not valid
JSON, or present with content parsing to a JSON object.  The claims under
verification only concern these three cases; a file parsing to a non-object
JSON value (array, number, ...) is outside every claim and is not modelled. -/
inductive JsonFile where
  | absent : JsonFile
  | invalid (raw : String) : JsonFile
  | parsedObj (fields : List (String × Json)) : JsonFile

/-- Result of `JSON.parse(fs.readFileSync(filePath, 'utf8'))` inside the
`try` of `patchJsonFile`: both a missing file (readFileSync throws ENOENT)
and unparseable content (JSON.parse throws SyntaxError) are caught by the
empty `catch { }`, leaving `existing = {}`. -/
def readParse : JsonFile → Option (List (String × Json))
  | .parsedObj fields => some fields
  | _ => none

/-- Embedding of `patchJsonFile` (mcp-sync.ts, lines 88-93): read and parse
the existing file, falling back to the empty object on any failure, apply
`Object.assign(existing, patchObj)`, and write the result back.  The
returned value is the new on-disk state of the file; the write itself (the
only remaining fallible operation) is outside the function's own `try`. -/
def patchJsonFile (file : JsonFile) (patch : List (String × Json)) : JsonFile :=
  let existing := (readParse file).getD []
  JsonFile.parsedObj (objAssign existing patch)

/-- Canonical server specification (spec section 3): `args` and `env` are
optional in the stored JSON, and `undefined` (absent) is distinguished from
a present empty array/object because JavaScript truthiness distinguishes
them (`undefined` is falsy, `[]` and `{}` are truthy). -/
structure ServerSpec where
  command : String
  args : Option (List String)
  env : Option (List (String × String))
  deriving DecidableEq, Repr

/-- Body of the loop of `toClaudeMcp` (mcp-sync.ts, lines 42-45):
`result[name] = { command: srv.command, args: srv.args || [] };
if (srv.env) result[name].env = srv.env;`.  The `env` key is added whenever
`srv.env` is present (truthy), including a present-but-empty object. -/
def claudeEntry (srv : ServerSpec) : Json :=
  Json.obj
    ([("command", Json.str srv.command),
      ("args", Json.arr ((srv.args.getD []).map Json.str))] ++
      (match srv.env with
       | some e => [("env", Json.obj (e.map (fun p => (p.1, Json.str p.2))))]
       | none => []))

/-- Fields of the object built by the loop of `toClaudeMcp`, in insertion
order of the server map. -/
def claudeFields (servers : List (String × ServerSpec)) : List (String × Json) :=
  servers.map (fun p => (p.1, claudeEntry p.2))

/-- Embedding of `toClaudeMcp` (mcp-sync.ts, lines 39-47), applied to
`config.servers` (absent `servers` defaults to the empty map and is passed
as `[]`). -/
def toClaudeMcp (servers : List (String × ServerSpec)) : Json :=
  Json.obj [("mcpServers", Json.obj (claudeFields servers))]

/-- Embedding of `toOpenCodeMcp` (mcp-sync.ts, lines 69-77): same per-server
loop as `toClaudeMcp` but without the wrapping `mcpServers` key. -/
def toOpenCodeMcp (servers : List (String × ServerSpec)) : Json :=
  Json.obj (claudeFields servers)

/-- Whether a JSON object has the given top-level key. -/
def hasField (j : Json) (k : String) : Bool :=
  match j with
  | .obj fields => (lookupField fields k).isSome
  | _ => false

/-- One `[mcp_servers.<name>]` block of `toCodexToml` (mcp-sync.ts, lines
52-64): the `args` line is emitted only when `srv.args?.length` is truthy
(present and non-empty), the `env` subsection whenever `srv.env` is present
(truthy), and the block ends with a blank line. -/
def codexServerBlock (name : String) (srv : ServerSpec) : String :=
  "[mcp_servers." ++ name ++ "]\n" ++
  "command = \"" ++ srv.command ++ "\"\n" ++
  (match srv.args with
   | some (a :: rest) =>
     "args = [" ++
       String.intercalate ", " (((a :: rest)).map (fun x => "\"" ++ x ++ "\"")) ++
       "]\n"
   | _ => "") ++
  (match srv.env with
   | some e =>
     "[mcp_servers." ++ name ++ ".env]\n" ++
       String.join (e.map (fun p => p.1 ++ " = \"" ++ p.2 ++ "\"\n"))
   | none => "") ++
  "\n"

/-- Embedding of `toCodexToml` (mcp-sync.ts, lines 49-67). -/
def toCodexToml (servers : List (String × ServerSpec)) : String :=
  String.join (servers.map (fun p => codexServerBlock p.1 p.2))

/-- Character-level model of `s.endsWith p` (JavaScript
`String.prototype.endsWith`). -/
def endsWithStr (s p : String) : Bool :=
  p.data.isSuffixOf s.data

/-- Literal characters of the fixed part of the section-header pattern
`\[mcp_servers\.` used by `patchCodexToml`. -/
def mcpHeaderToken : List Char := '[' :: "mcp_servers.".data

/-- Completion of a header match after the literal `[mcp_servers.` token:
the regex requires one or more non-`]` characters (`[^\]]+`, which being
unable to contain `]` necessarily stops at the first one) followed by `]`.
Returns the remainder after the closing bracket, or `none` when the header
does not complete (so the regex engine finds no match at this position). -/
def matchHeaderRest (cs : List Char) : Option (List Char) :=
  let run := cs.takeWhile (fun c => c ≠ ']')
  if run.isEmpty then none
  else
    match cs.drop run.length with
    | ']' :: rest => some rest
    | _ => none

/-- Whether a match starting with `[mcp_servers.` begins at this position;
on success returns the text following the complete header. -/
def matchMcpAt (cs : List Char) : Option (List Char) :=
  if mcpHeaderToken.isPrefixOf cs then
    matchHeaderRest (cs.drop mcpHeaderToken.length)
  else none

/-- The zero-width lookahead `(?=\n\[(?!mcp_servers)|$)` of the
`patchCodexToml` regex holds at a position iff the text continues with a
newline and an opening bracket not followed by the literal `mcp_servers`
(note: without a dot, so a following `[mcp_serversXY]` header is not a
boundary), or the end of the string is reached. -/
def mcpBoundary (cs : List Char) : Bool :=
  match cs with
  | '\n' :: '[' :: rest => !("mcp_servers".data.isPrefixOf rest)
  | _ => false

/-- Lazy body `[\s\S]*?` of the section match: consume as few characters as
possible until the boundary lookahead holds or the string ends; the
boundary itself is not consumed. -/
def skipToBoundary : List Char → List Char
  | [] => []
  | c :: cs => if mcpBoundary (c :: cs) then c :: cs else skipToBoundary cs

/-- Global replacement by the empty string of every match of
`/\[mcp_servers\.[^\]]+\][\s\S]*?(?=\n\[(?!mcp_servers)|$)/g`: scan left to
right; at a match, drop the matched span and continue scanning at the match
end (the unconsumed lookahead position); otherwise keep the character.  The
fuel argument bounds the number of scanning steps; each step either emits or
drops at least one character, so `length + 1` fuel always suffices. -/
def removeMcpAux : Nat → List Char → List Char
  | 0, cs => cs
  | _, [] => []
  | Nat.succ fuel, c :: cs =>
    match matchMcpAt (c :: cs) with
    | some rest => removeMcpAux fuel (skipToBoundary rest)
    | none => c :: removeMcpAux fuel cs

/-- Removal of the existing `[mcp_servers.*]` blocks, i.e. the
`existingToml.replace(regex, '')` step of `patchCodexToml`. -/
def removeMcpSections (s : String) : String :=
  ⟨removeMcpAux (s.data.length + 1) s.data⟩

/-- Model of `String.prototype.trimEnd`: strip trailing whitespace. -/
def trimEndStr (s : String) : String :=
  ⟨(s.data.reverse.dropWhile Char.isWhitespace).reverse⟩

/-- Embedding of `patchCodexToml` (mcp-sync.ts, lines 79-86): remove the
existing `[mcp_servers.*]` blocks, trim trailing whitespace, and append a
blank line and the freshly rendered blocks. -/
def patchCodexToml (existingToml newMcpToml : String) : String :=
  trimEndStr (removeMcpSections existingToml) ++ "\n\n" ++ newMcpToml

/-- Discovery result record of `detectMcpConfigs` (mcp-sync.ts, 115-119). -/
structure McpCandidate where
  label : String
  path : String
  count : Nat
  deriving DecidableEq, Repr

/-- Count of non-overlapping occurrences of a pattern, as computed by
`(raw.match(/pat/g) || []).length`: scan left to right, and after a match
resume immediately after it.  Fuel bounds the scan; `length + 1` suffices
for a non-empty pattern. -/
def countOccAux (pat : List Char) : Nat → List Char → Nat
  | 0, _ => 0
  | _, [] => 0
  | Nat.succ fuel, c :: cs =>
    if pat.isPrefixOf (c :: cs) then
      1 + countOccAux pat fuel ((c :: cs).drop pat.length)
    else countOccAux pat fuel cs

/-- Number of matches of the literal pattern in the string. -/
def countOcc (pat s : String) : Nat :=
  countOccAux pat.data (s.data.length + 1) s.data

/-- JavaScript truthiness of a parsed JSON value: `null`, `false`, `0` and
the empty string are falsy; every object and array (empty or not) is
truthy.  The absent-property value `undefined` is modelled by `null`
(both are falsy, and no claim distinguishes them). -/
def jsTruthy : Json → Bool
  | .null => false
  | .bool b => b
  | .num n => n != 0
  | .str s => s != ""
  | .arr _ => true
  | .obj _ => true

/-- Property access `data[k]` with `undefined` modelled as `null`: on a
non-object the access yields `undefined` (numbers and strings have no own
enumerable data properties relevant here). -/
def getFieldJs (j : Json) (k : String) : Json :=
  match j with
  | .obj fields => (lookupField fields k).getD Json.null
  | _ => Json.null

/-- JavaScript `||` chain over property accesses with a final `{}` default:
`data.k1 || data.k2 || ... || {}` returns the first truthy value. -/
def jsOrChain (data : Json) (keys : List String) : Json :=
  match keys with
  | [] => Json.obj []
  | k :: rest =>
    let v := getFieldJs data k
    if jsTruthy v then v else jsOrChain data rest

/-- Model of `Object.keys(x).length`: own enumerable keys of an object
(unique after `JSON.parse`), indices of an array, character indices of a
(boxed) string, and none for other primitives. -/
def keysCount : Json → Nat
  | .obj fields => fields.length
  | .arr elems => elems.length
  | .str s => s.length
  | _ => 0

/-- The seven scanned locations of `detectMcpConfigs` (mcp-sync.ts, lines
123-131); `path.join` on these absolute segments concatenates with `/`. -/
def mcpChecks (home mcpPath : String) : List (String × String) :=
  [("agent-sync", mcpPath),
   ("Claude", home ++ "/.mcp.json"),
   ("Codex", home ++ "/.codex/config.toml"),
   ("Gemini", home ++ "/.gemini/settings.json"),
   ("Copilot", home ++ "/.copilot/mcp-config.json"),
   ("Antigravity", home ++ "/.gemini/antigravity/mcp_config.json"),
   ("OpenCode", home ++ "/.config/opencode/opencode.json")]

/-- Body of the per-location loop of `detectMcpConfigs` (mcp-sync.ts, lines
133-146): `readF` returns the file content or `none` when `readFileSync`
throws, and `parseF` is the (abstract) `JSON.parse`, returning `none` when
it throws.  Any throw is swallowed by the `catch { /* skip */ }`, and a
candidate is pushed only when the computed count is positive. -/
def checkMcpCandidate (readF : String → Option String)
    (parseF : String → Option Json) (label path : String) :
    Option McpCandidate :=
  match readF path with
  | none => none
  | some raw =>
    if endsWithStr path ".toml" then
      let count := countOcc "[mcp_servers." raw
      if count > 0 then some ⟨label, path, count⟩ else none
    else
      match parseF raw with
      | none => none
      | some data =>
        let count := keysCount (jsOrChain data ["mcpServers", "servers", "mcp"])
        if count > 0 then some ⟨label, path, count⟩ else none

/-- Embedding of `detectMcpConfigs` (mcp-sync.ts, lines 121-148). -/
def detectMcpConfigs (readF : String → Option String)
    (parseF : String → Option Json) (home mcpPath : String) :
    List McpCandidate :=
  (mcpChecks home mcpPath).filterMap
    (fun lp => checkMcpCandidate readF parseF lp.1 lp.2)

/-- Directory entry as seen by `lstat` (no following of symbolic links): a
regular file, a directory, or a symbolic link storing its raw target text.
File contents are not modelled; the claims only concern existence. -/
inductive Entry where
  | file : Entry
  | dir : Entry
  | symlink (rawTarget : String) : Entry
  deriving DecidableEq, Repr

/-- File system state: association list from absolute path string to entry;
an entry whose path extends `p ++ "/"` lies inside the directory `p`. -/
abbrev FS := List (String × Entry)

/-- Entry at the exact path (first match). -/
def lookupFS (fs : FS) (p : String) : Option Entry :=
  match fs with
  | [] => none
  | (q, e) :: rest => if q = p then some e else lookupFS rest p

/-- Worker for `pathPrefixes`: walk the characters, emitting the path
accumulated so far at every separator that follows a non-empty prefix, and
the whole path at the end. -/
def pathPrefixesAux (acc : List Char) : List Char → List (List Char)
  | [] => [acc.reverse]
  | c :: cs =>
    if c = '/' ∧ acc ≠ [] then acc.reverse :: pathPrefixesAux (c :: acc) cs
    else pathPrefixesAux (c :: acc) cs

/-- The non-empty prefixes of `p` ending just before a `/` separator, plus
`p` itself: the directories `fs.mkdirSync(p, { recursive: true })` ensures
in order (e.g. `pathPrefixes "/a/b" = ["/a", "/a/b"]`). -/
def pathPrefixes (p : String) : List String :=
  (pathPrefixesAux [] p.data).map (fun l => ⟨l⟩)

/-- Model of `path.dirname` for the slash-separated paths used here: strip
the last component; no separator yields `"."`, a sole leading separator
yields `"/"`. -/
def dirname (p : String) : String :=
  match p.data.reverse.findIdx? (fun c => c = '/') with
  | none => "."
  | some i =>
    let k := p.data.length - 1 - i
    if k = 0 then "/" else ⟨p.data.take k⟩

/-- Character-level model of `s.startsWith p` (JavaScript
`String.prototype.startsWith`). -/
def startsWithStr (s p : String) : Bool :=
  p.data.isPrefixOf s.data

/-- Character-level split on the `/` separator (as `p.split('/')`,
segments kept verbatim including empty ones). -/
def splitSlashAux (acc : List Char) : List Char → List String
  | [] => [⟨acc.reverse⟩]
  | c :: cs =>
    if c = '/' then ⟨acc.reverse⟩ :: splitSlashAux [] cs
    else splitSlashAux (c :: acc) cs

/-- Path split on `/` into non-empty components. -/
def pathComponents (p : String) : List String :=
  (splitSlashAux [] p.data).filter (fun s => s ≠ "")

/-- Normalization of `path.resolve`: `.` is dropped and `..` removes the
previous component (clamped at the root). -/
def normalizeComponents (comps : List String) : List String :=
  comps.foldl
    (fun acc c =>
      if c = "." then acc
      else if c = ".." then acc.dropLast
      else acc ++ [c]) []

/-- Model of `resolve(dir, rel)` for an absolute `dir` and relative `rel`:
join the components and normalize into an absolute path. -/
def resolveAbs (base rel : String) : String :=
  "/" ++ String.intercalate "/"
    (normalizeComponents (pathComponents base ++ pathComponents rel))

/-- Embedding of `resolveSymlinkTarget` (symlink.ts, lines 147-150): an
absolute raw target is taken verbatim, a relative one is resolved against
the link's parent directory. -/
def resolveSymlinkTarget (linkPath rawTarget : String) : String :=
  if startsWithStr rawTarget "/" then rawTarget
  else resolveAbs (dirname linkPath) rawTarget

/-- Backup context (symlink.ts, lines 137-140): root keyed by today's date
and a monotonically increasing counter.  The source shares one mutable
object between calls; the model keeps it in the run state. -/
structure BackupContext where
  root : String
  count : Nat
  deriving DecidableEq, Repr

/-- Embedding of `createBackupContext` (symlink.ts, lines 142-145):
`join(AGENT_SYNC_HOME, 'backups', date)`, with the agent-sync home and the
ISO date prefix of the current time passed explicitly. -/
def createBackupContext (agentSyncHome date : String) : BackupContext :=
  { root := agentSyncHome ++ "/backups/" ++ date, count := 0 }

/-- Status component of a `SymlinkResult` (symlink.ts, line 153). -/
inductive Status where
  | ok | skip | error
  deriving DecidableEq, Repr

/-- Embedding of the `SymlinkResult` record (symlink.ts, lines 152-159). -/
structure SymlinkResult where
  status : Status
  action : String
  name : String
  linkPath : String
  target : String
  error : Option String
  deriving DecidableEq, Repr

/-- Optional-argument object of `ensureSymlinkSafe` (symlink.ts, line 164). -/
structure SymlinkOpts where
  onConflict : Option String := none
  backupContext : Option BackupContext := none
  name : Option String := none
  deriving Repr

/-- Fault oracle: at step `n` of a run, `f n = some msg` makes the
file-system primitive executed at that step throw an I/O error carrying
`msg` (modelling EACCES, ENOSPC, a vanished mount, ...); `none` lets the
primitive proceed normally. -/
abbrev Faults := Nat → Option String

/-- The oracle injecting no faults. -/
def noFaults : Faults := fun _ => none

/-- Run state: file system, shared backup context, and the step counter
consumed by the fault oracle. -/
structure St where
  fs : FS
  ctx : BackupContext
  tick : Nat
  deriving DecidableEq, Repr

/-- Wrapper giving each `fs.*Sync` call its step semantics: consult the
fault oracle first, then run the operation; a failing operation keeps the
partial file-system effects it describes. -/
def prim (op : FS → Except String α × FS) (f : Faults) (s : St) :
    Except String α × St :=
  match f s.tick with
  | some msg => (.error msg, { s with tick := s.tick + 1 })
  | none =>
    let r := op s.fs
    (r.1, { s with fs := r.2, tick := s.tick + 1 })

/-- Sequencing of fallible steps: a thrown error propagates, keeping the
state reached at the point of the throw. -/
def bindE (r : Except String α × St) (k : α → St → Except String β × St) :
    Except String β × St :=
  match r with
  | (.error e, s) => (.error e, s)
  | (.ok a, s) => k a s

/-- Sequential creation of the missing directories along the prefix list,
the behaviour of `fs.mkdirSync(p, { recursive: true })`: an existing
directory is kept, a missing one created, and a non-directory entry on the
way raises EEXIST/ENOTDIR.  (Node would follow a symlink to a directory on
the way; no run relevant to the claims has one, and the model treats it as
the error case.)  Directories created before a failure persist. -/
def mkdirList (l : List String) (fs : FS) : Except String Unit × FS :=
  match l with
  | [] => (.ok (), fs)
  | q :: rest =>
    match lookupFS fs q with
    | none => mkdirList rest ((q, Entry.dir) :: fs)
    | some Entry.dir => mkdirList rest fs
    | some _ => (.error "EEXIST: not a directory", fs)

/-- Model of `fs.mkdirSync(p, { recursive: true })`. -/
def mkdirSyncRec (p : String) (f : Faults) (s : St) : Except String Unit × St :=
  prim (fun fs => mkdirList (pathPrefixes p) fs) f s

/-- Model of `fs.lstatSync(p, { throwIfNoEntry: false })`: the entry at the
exact path without following symlinks; absence yields `undefined` (`none`)
rather than an error. -/
def lstatNoThrow (p : String) (f : Faults) (s : St) :
    Except String (Option Entry) × St :=
  prim (fun fs => (.ok (lookupFS fs p), fs)) f s

/-- Model of `fs.readlinkSync(p)`: raw target text of the symlink at `p`. -/
def readlinkSync (p : String) (f : Faults) (s : St) : Except String String × St :=
  prim (fun fs =>
    match lookupFS fs p with
    | some (Entry.symlink t) => (.ok t, fs)
    | _ => (.error "EINVAL: not a symlink", fs)) f s

/-- Model of `fs.unlinkSync(p)`: remove the file or symlink entry at the
exact path; a directory raises EPERM (the source only unlinks symlinks). -/
def unlinkSync (p : String) (f : Faults) (s : St) : Except String Unit × St :=
  prim (fun fs =>
    match lookupFS fs p with
    | some Entry.dir => (.error "EPERM: unlink of a directory", fs)
    | some _ => (.ok (), fs.filter (fun q => q.1 ≠ p))
    | none => (.error "ENOENT", fs)) f s

/-- Model of `fs.symlinkSync(target, linkPath)`: create a link storing the
raw target text; an existing entry at `linkPath` raises EEXIST.  (Callers
modelled here create the parent directory first.) -/
def symlinkSync (target linkPath : String) (f : Faults) (s : St) :
    Except String Unit × St :=
  prim (fun fs =>
    match lookupFS fs linkPath with
    | some _ => (.error "EEXIST", fs)
    | none => (.ok (), (linkPath, Entry.symlink target) :: fs)) f s

/-- Whether `q` lies strictly inside the directory at path `base`. -/
def underPath (base q : String) : Bool :=
  (base ++ "/").data.isPrefixOf q.data

/-- Model of `fs.renameSync(src, dst)`: move the entry at `src` together
with its whole subtree below `dst` (in the modelled runs `dst` is fresh and
its parent directory was just created). -/
def renameSync (src dst : String) (f : Faults) (s : St) : Except String Unit × St :=
  prim (fun fs =>
    match lookupFS fs src with
    | none => (.error "ENOENT", fs)
    | some _ =>
      (.ok (), fs.map (fun q =>
        if q.1 = src then (dst, q.2)
        else if underPath src q.1 = true then (dst ++ q.1.drop src.length, q.2)
        else q))) f s

/-- Immediate child name of directory `d` contributed by the path `q`. -/
def childNameOf (d q : String) : Option String :=
  if underPath d q then
    let rest := q.drop (d.length + 1)
    if rest ≠ "" ∧ ¬ rest.data.contains '/' then some rest else none
  else none

/-- Model of `fs.readdirSync(p)` restricted to entry names (the
`withFileTypes` tags are re-derived by the caller via `statSync`).  Only
the directory-copy fallback reaches this primitive; reading through a
symlink (which Node would follow) is not modelled, as no claim exercises
it. -/
def readdirSync (p : String) (f : Faults) (s : St) :
    Except String (List String) × St :=
  prim (fun fs =>
    match lookupFS fs p with
    | some Entry.dir => (.ok (fs.filterMap (fun q => childNameOf p q.1)), fs)
    | some _ => (.error "ENOTDIR", fs)
    | none => (.error "ENOENT", fs)) f s

/-- Symlink-chain resolution of `fs.statSync`: follow raw targets (relative
ones against the link's parent directory) until a non-link entry; the fuel
bound models ELOOP on cyclic chains. -/
def statChase (fs : FS) : Nat → String → Except String Entry
  | 0, _ => .error "ELOOP"
  | Nat.succ fuel, p =>
    match lookupFS fs p with
    | none => .error "ENOENT"
    | some (Entry.symlink t) => statChase fs fuel (resolveSymlinkTarget p t)
    | some e => .ok e

/-- Model of `fs.statSync(p)` (follows symbolic links). -/
def statSync (p : String) (f : Faults) (s : St) : Except String Entry × St :=
  prim (fun fs => (statChase fs (fs.length + 1) p, fs)) f s

/-- Model of `fs.copyFileSync(src, dst)` at entry granularity (contents are
not modelled): `dst` is created or replaced as a regular file. -/
def copyFileSync (src dst : String) (f : Faults) (s : St) :
    Except String Unit × St :=
  prim (fun fs =>
    match lookupFS fs src with
    | none => (.error "ENOENT", fs)
    | some _ => (.ok (), (dst, Entry.file) :: fs.filter (fun q => q.1 ≠ dst))) f s

mutual

/-- Embedding of `copyDirRecursive` (symlink.ts, lines 241-257): create the
destination directory, list the source, and process each entry.  The fuel
bounds the recursion depth; exhausting it models the unbounded recursion a
symlink cycle inside the tree causes in the source. -/
def copyDirRec (fuel : Nat) (src dst : String) (f : Faults) (s : St) :
    Except String Unit × St :=
  match fuel with
  | 0 => (.error "ELOOP: recursion limit", s)
  | Nat.succ fuel2 =>
    bindE (mkdirSyncRec dst f s) fun _ s1 =>
    bindE (readdirSync src f s1) fun names s2 =>
    copyEntriesRec fuel2 src dst names f s2
termination_by (fuel, 0)

/-- Per-entry loop of `copyDirRecursive`: stat following symlinks, recurse
into directories, copy files; any per-entry error is swallowed and the
entry skipped (the `try { ... } catch { }` around the loop body). -/
def copyEntriesRec (fuel : Nat) (src dst : String) (names : List String)
    (f : Faults) (s : St) : Except String Unit × St :=
  match names with
  | [] => (.ok (), s)
  | n :: rest =>
    let step :=
      bindE (statSync (src ++ "/" ++ n) f s) fun st s2 =>
        match st with
        | Entry.dir => copyDirRec fuel (src ++ "/" ++ n) (dst ++ "/" ++ n) f s2
        | _ => copyFileSync (src ++ "/" ++ n) (dst ++ "/" ++ n) f s2
    copyEntriesRec fuel src dst rest f step.2
termination_by (fuel, names.length + 1)

end

/-- Embedding of `createLinkWithFallback` (symlink.ts, lines 212-229) on a
POSIX platform (`process.platform` is not `win32`, so the junction branch
is skipped): try a true symlink, and on any error fall back to the
recursive directory copy. -/
def createLinkWithFallback (target linkPath : String) (f : Faults) (s : St) :
    Except String Unit × St :=
  match symlinkSync target linkPath f s with
  | (.ok _, s2) => (.ok (), s2)
  | (.error _, s2) => copyDirRec (s2.fs.length + 1) target linkPath f s2

/-- Flattened backup file name of `movePathToBackup`:
`pathToMove.replace(/\//g, '__').replace(/^__/, '')` — every separator
becomes a literal double underscore, then one leading double underscore is
stripped. -/
def flattenPathName (p : String) : String :=
  let flat : String :=
    ⟨p.data.foldr (fun c acc => if c = '/' then '_' :: '_' :: acc else c :: acc) []⟩
  if ['_', '_'].isPrefixOf flat.data then flat.drop 2 else flat

/-- Embedding of `movePathToBackup` (symlink.ts, lines 231-236): ensure the
backup root exists, compute the destination from the flattened name and the
current counter (the post-increment of `context.count++` happens while the
destination is computed, before the rename), then rename the conflicting
path into the backup root. -/
def movePathToBackup (pathToMove : String) (f : Faults) (s : St) :
    Except String Unit × St :=
  bindE (mkdirSyncRec s.ctx.root f s) fun _ s2 =>
    let ctx := s2.ctx
    let dest := ctx.root ++ "/" ++ flattenPathName pathToMove ++ "_" ++ toString ctx.count
    renameSync pathToMove dest f { s2 with ctx := { ctx with count := ctx.count + 1 } }

/-- Body of the `try` block of `ensureSymlinkSafe` (symlink.ts, lines
170-200), evaluated in the source's order: ensure the parent directory,
lstat the link path, then branch on absent / symlink / real entry. -/
def ensureSymlinkGo (target linkPath onConflict name : String) (f : Faults)
    (s : St) : Except String SymlinkResult × St :=
  bindE (mkdirSyncRec (dirname linkPath) f s) fun _ s1 =>
  bindE (lstatNoThrow linkPath f s1) fun stat s2 =>
  match stat with
  | some entry =>
    match entry with
    | Entry.symlink _ =>
      bindE (readlinkSync linkPath f s2) fun rawTarget s3 =>
      if resolveSymlinkTarget linkPath rawTarget = target then
        (.ok { status := .skip, action := "already_correct", name := name,
               linkPath := linkPath, target := target, error := none }, s3)
      else
        bindE (unlinkSync linkPath f s3) fun _ s4 =>
        bindE (createLinkWithFallback target linkPath f s4) fun _ s5 =>
        (.ok { status := .ok, action := "replace_symlink", name := name,
               linkPath := linkPath, target := target, error := none }, s5)
    | _ =>
      if onConflict = "skip" then
        (.ok { status := .skip, action := "skip_conflict", name := name,
               linkPath := linkPath, target := target, error := none }, s2)
      else
        bindE (movePathToBackup linkPath f s2) fun _ s3 =>
        bindE (createLinkWithFallback target linkPath f s3) fun _ s4 =>
        (.ok { status := .ok, action := "backup_and_link", name := name,
               linkPath := linkPath, target := target, error := none }, s4)
  | none =>
    bindE (createLinkWithFallback target linkPath f s2) fun _ s3 =>
    (.ok { status := .ok, action := "created", name := name,
           linkPath := linkPath, target := target, error := none }, s3)

/-- Embedding of `ensureSymlinkSafe` (symlink.ts, lines 161-204): fill the
option defaults, install the provided (or fresh) backup context, run the
`try` body, and convert any thrown error into a `status = error` result
carrying the error message. -/
def ensureSymlinkSafe (agentSyncHome date target linkPath : String)
    (opts : SymlinkOpts) (f : Faults) (s : St) : SymlinkResult × St :=
  let onConflict := opts.onConflict.getD "backup"
  let name := opts.name.getD "link"
  let s0 :=
    { s with ctx := opts.backupContext.getD (createBackupContext agentSyncHome date) }
  match ensureSymlinkGo target linkPath onConflict name f s0 with
  | (.ok r, s1) => (r, s1)
  | (.error e, s1) =>
    ({ status := .error, action := "error", name := name, linkPath := linkPath,
       target := target, error := some e }, s1)

/-- Result record of `syncSkills` (skill-sync.ts, lines 70-73). -/
structure SkillSyncResult where
  source : String
  links : List SymlinkResult
  deriving DecidableEq, Repr

/-- Per-target loop of `syncSkills` (skill-sync.ts, lines 89-109).  The
shared backup context lives in the run state and is re-read before each
call, modelling the aliased mutable context object of the source. -/
def syncSkillsGo (agentSyncHome date canonicalPath sourcePath : String)
    (targets : List (String × String)) (f : Faults) (s : St) :
    List SymlinkResult × St :=
  match targets with
  | [] => ([], s)
  | (name, targetPath) :: rest =>
    if targetPath = sourcePath then
      let r : SymlinkResult :=
        { status := .skip, action := "is_source", name := name,
          linkPath := targetPath, target := sourcePath, error := none }
      let next := syncSkillsGo agentSyncHome date canonicalPath sourcePath rest f s
      (r :: next.1, next.2)
    else
      let link :=
        if targetPath = canonicalPath ∧ sourcePath ≠ canonicalPath then
          ensureSymlinkSafe agentSyncHome date sourcePath targetPath
            { onConflict := some "backup", backupContext := some s.ctx,
              name := some name } f s
        else
          ensureSymlinkSafe agentSyncHome date canonicalPath targetPath
            { onConflict := some "backup", backupContext := some s.ctx,
              name := some name } f s
      let next := syncSkillsGo agentSyncHome date canonicalPath sourcePath rest f link.2
      (link.1 :: next.1, next.2)

/-- Embedding of `syncSkills` (skill-sync.ts, lines 75-112): one backup
context for the whole run, three in-project targets, the canonical path
`.agent/skills`, and one reconciliation per target (the source path itself
is skipped as `is_source`). -/
def syncSkills (agentSyncHome date cwd sourcePath : String) (f : Faults)
    (s : St) : SkillSyncResult × St :=
  let s0 := { s with ctx := createBackupContext agentSyncHome date }
  let canonicalPath := cwd ++ "/.agent/skills"
  let targets := [("agent_skills", cwd ++ "/.agent/skills"),
                  ("agents_skills", cwd ++ "/.agents/skills"),
                  ("claude_skills", cwd ++ "/.claude/skills")]
  let r := syncSkillsGo agentSyncHome date canonicalPath sourcePath targets f s0
  ({ source := sourcePath, links := r.1 }, r.2)

/-- Whether `q` is the path `base` itself or lies strictly inside it; the
set of paths an operation on the subtree rooted at `base` may touch. -/
def underEqB (base q : String) : Bool :=
  decide (q = base) || underPath base q

/-- Initial state of the spec's backup scenario (spec section 8): the
desired target `/proj/.agent/skills` exists, and the link path
`/proj/.claude/skills` is a real directory containing one file `x.md`;
the agent-sync home is `/h` and today's date `2026-02-27`. -/
def c4Start : St :=
  { fs := [("/proj", Entry.dir), ("/proj/.agent", Entry.dir),
           ("/proj/.agent/skills", Entry.dir), ("/proj/.claude", Entry.dir),
           ("/proj/.claude/skills", Entry.dir),
           ("/proj/.claude/skills/x.md", Entry.file)],
    ctx := createBackupContext "/h" "2026-02-27",
    tick := 0 }

/-- The backup-scenario run: reconcile `/proj/.claude/skills` against
`/proj/.agent/skills` with `onConflict = backup`. -/
def c4Run : SymlinkResult × St :=
  ensureSymlinkSafe "/h" "2026-02-27" "/proj/.agent/skills"
    "/proj/.claude/skills"
    { onConflict := some "backup",
      backupContext := some (createBackupContext "/h" "2026-02-27") }
    noFaults c4Start

/-! ## Association-list lemmas for the JSON patch -/

theorem lookupField_cons (a : String) (b : Json) (rest : List (String × Json))
    (k : String) :
    lookupField ((a, b) :: rest) k = if a = k then some b else lookupField rest k :=
  rfl

theorem lookupField_map_set_self (fields : List (String × Json)) (k : String)
    (v : Json) (h : fields.any (fun p => p.1 = k) = true) :
    lookupField (fields.map (fun p => if p.1 = k then (p.1, v) else p)) k = some v := by
  induction fields with
  | nil => simp at h
  | cons hd tl ih =>
    obtain ⟨a, b⟩ := hd
    by_cases hk : a = k
    · subst hk
      simp [List.map_cons, lookupField_cons]
    · simp only [List.any_cons, Bool.or_eq_true, decide_eq_true_eq] at h
      rcases h with h | h
      · exact absurd h hk
      · simp only [List.map_cons, if_neg hk, lookupField_cons, if_neg hk]
        exact ih h

theorem lookupField_map_set_other (fields : List (String × Json)) (k : String)
    (v : Json) (k2 : String) (hne : k2 ≠ k) :
    lookupField (fields.map (fun p => if p.1 = k then (p.1, v) else p)) k2 =
      lookupField fields k2 := by
  induction fields with
  | nil => rfl
  | cons hd tl ih =>
    obtain ⟨a, b⟩ := hd
    by_cases hk : a = k
    · subst hk
      have hne2 : a ≠ k2 := fun hh => hne (hh ▸ rfl)
      simp [List.map_cons, lookupField_cons, hne2, ih]
    · simp only [List.map_cons, if_neg hk, lookupField_cons]
      by_cases ha : a = k2
      · simp [ha]
      · simp [ha, ih]

theorem lookupField_append_self (fields : List (String × Json)) (k : String)
    (v : Json) (h : fields.any (fun p => p.1 = k) = false) :
    lookupField (fields ++ [(k, v)]) k = some v := by
  induction fields with
  | nil => simp [lookupField]
  | cons hd tl ih =>
    obtain ⟨a, b⟩ := hd
    simp only [List.any_cons, Bool.or_eq_false_iff, decide_eq_false_iff_not] at h
    simp only [List.cons_append, lookupField_cons, if_neg h.1]
    exact ih h.2

theorem lookupField_append_other (fields : List (String × Json)) (k : String)
    (v : Json) (k2 : String) (hne : k2 ≠ k) :
    lookupField (fields ++ [(k, v)]) k2 = lookupField fields k2 := by
  induction fields with
  | nil =>
    have hkk : k ≠ k2 := fun hh => hne (hh ▸ rfl)
    simp [lookupField, hkk]
  | cons hd tl ih =>
    obtain ⟨a, b⟩ := hd
    by_cases ha : a = k2
    · simp [List.cons_append, lookupField_cons, ha]
    · simp [List.cons_append, lookupField_cons, ha, ih]

theorem lookupField_objSetKey_self (fields : List (String × Json)) (k : String)
    (v : Json) :
    lookupField (objSetKey fields k v) k = some v := by
  unfold objSetKey
  by_cases h : fields.any (fun p => p.1 = k) = true
  · rw [if_pos h]
    exact lookupField_map_set_self fields k v h
  · rw [if_neg h]
    exact lookupField_append_self fields k v (Bool.eq_false_iff.mpr h)

theorem lookupField_objSetKey_other (fields : List (String × Json)) (k : String)
    (v : Json) (k2 : String) (hne : k2 ≠ k) :
    lookupField (objSetKey fields k v) k2 = lookupField fields k2 := by
  unfold objSetKey
  by_cases h : fields.any (fun p => p.1 = k) = true
  · rw [if_pos h]
    exact lookupField_map_set_other fields k v k2 hne
  · rw [if_neg h]
    exact lookupField_append_other fields k v k2 hne

/-! ## Claim C1 -/

/-- Claim C1: for every existing downstream JSON target file whose content
parses to an object and every patch value, `patchJsonFile` writes back an
object in which exactly the tool-owned top-level key carries the new value
and every other top-level key keeps its original value (present iff it was
present before). -/
theorem C1_patchJsonFile_preserves_unrelated_keys
    (fields : List (String × Json)) (key : String) (v : Json) :
    patchJsonFile (JsonFile.parsedObj fields) [(key, v)] =
      JsonFile.parsedObj (objSetKey fields key v) ∧
    lookupField (objSetKey fields key v) key = some v ∧
    ∀ k, k ≠ key →
      lookupField (objSetKey fields key v) k = lookupField fields k :=
  ⟨rfl, lookupField_objSetKey_self fields key v,
   fun k hk => lookupField_objSetKey_other fields key v k hk⟩

/-- Witness for C1 at the spec's own example: an existing file
`{"theme": "dark"}` patched under key `mcpServers` keeps `theme` intact. -/
theorem C1_witness :
    ("theme" : String) ≠ "mcpServers" ∧
    (patchJsonFile (JsonFile.parsedObj [("theme", Json.str "dark")])
        [("mcpServers", Json.obj [])] =
      JsonFile.parsedObj
        (objSetKey [("theme", Json.str "dark")] "mcpServers" (Json.obj [])) ∧
    lookupField (objSetKey [("theme", Json.str "dark")] "mcpServers" (Json.obj []))
        "mcpServers" = some (Json.obj []) ∧
    lookupField (objSetKey [("theme", Json.str "dark")] "mcpServers" (Json.obj []))
        "theme" = lookupField [("theme", Json.str "dark")] "theme") :=
  ⟨by decide,
   (C1_patchJsonFile_preserves_unrelated_keys [("theme", Json.str "dark")]
      "mcpServers" (Json.obj [])).1,
   (C1_patchJsonFile_preserves_unrelated_keys [("theme", Json.str "dark")]
      "mcpServers" (Json.obj [])).2.1,
   (C1_patchJsonFile_preserves_unrelated_keys [("theme", Json.str "dark")]
      "mcpServers" (Json.obj [])).2.2 "theme" (by decide)⟩

/-! ## Claim C2 -/

/-- Counterexample to claim C2: a target file that exists with unparseable
content is not left untouched and no error is raised; `patchJsonFile`
overwrites it with the patch merged into the empty object. -/
theorem C2_counterexample :
    patchJsonFile (JsonFile.invalid "not json") [("mcpServers", Json.obj [])] =
      JsonFile.parsedObj [("mcpServers", Json.obj [])] ∧
    JsonFile.parsedObj [("mcpServers", Json.obj [])] ≠ JsonFile.invalid "not json" :=
  ⟨rfl, by simp⟩

/-- Claim C2 as amended: a present-but-unparseable downstream JSON target is
treated exactly like an absent one — the merge proceeds against the empty
in-memory object and the file is overwritten with the result; no per-target
error is reported for the parse failure. -/
theorem C2_unparseable_treated_as_empty (raw : String)
    (patch : List (String × Json)) :
    patchJsonFile (JsonFile.invalid raw) patch = patchJsonFile JsonFile.absent patch ∧
    patchJsonFile (JsonFile.invalid raw) patch =
      JsonFile.parsedObj (objAssign [] patch) :=
  ⟨rfl, rfl⟩

/-! ## Claim C5 -/

/-- Counterexample to claim C5: a server whose `env` mapping is present but
empty still gets an `env` key in the converted Claude-shape entry, because
the source guards on JavaScript truthiness of `srv.env` (an empty object is
truthy), not on non-emptiness. -/
theorem C5_counterexample :
    claudeEntry ⟨"c", none, some []⟩ =
      Json.obj [("command", Json.str "c"), ("args", Json.arr []),
                ("env", Json.obj [])] ∧
    toClaudeMcp [("s", ⟨"c", none, some []⟩)] =
      Json.obj [("mcpServers",
        Json.obj [("s",
          Json.obj [("command", Json.str "c"), ("args", Json.arr []),
                    ("env", Json.obj [])])])] ∧
    hasField (claudeEntry ⟨"c", none, some []⟩) "env" = true :=
  ⟨rfl, rfl, rfl⟩

/-- Claim C5 as amended: in the converted Claude/Copilot/Gemini/Antigravity
shape, a server's entry carries the `env` key iff the server's `env` field
is present (not `undefined`); a present-but-empty mapping is emitted as an
empty object. -/
theorem C5_env_key_iff_env_present (servers : List (String × ServerSpec))
    (name : String) (srv : ServerSpec) (hmem : (name, srv) ∈ servers) :
    ∃ fields, toClaudeMcp servers = Json.obj [("mcpServers", Json.obj fields)] ∧
      (name, claudeEntry srv) ∈ fields ∧
      hasField (claudeEntry srv) "env" = srv.env.isSome := by
  refine ⟨claudeFields servers, rfl, ?_, ?_⟩
  · exact List.mem_map.mpr ⟨(name, srv), hmem, rfl⟩
  · cases h : srv.env <;> simp [claudeEntry, hasField, lookupField, h]

/-- Witness for C5 on a two-server map: one server with `env` absent (no
`env` key) and one with it present. -/
theorem C5_witness :
    (("a", (⟨"c1", none, none⟩ : ServerSpec)) ∈
        [("a", (⟨"c1", none, none⟩ : ServerSpec)),
         ("b", (⟨"c2", none, some [("K", "V")]⟩ : ServerSpec))]) ∧
    (∃ fields,
      toClaudeMcp [("a", (⟨"c1", none, none⟩ : ServerSpec)),
                   ("b", (⟨"c2", none, some [("K", "V")]⟩ : ServerSpec))] =
        Json.obj [("mcpServers", Json.obj fields)] ∧
      ("a", claudeEntry ⟨"c1", none, none⟩) ∈ fields ∧
      hasField (claudeEntry ⟨"c1", none, none⟩) "env" =
        (Option.isSome (α := List (String × String)) none)) :=
  ⟨by simp,
   C5_env_key_iff_env_present
     [("a", ⟨"c1", none, none⟩), ("b", ⟨"c2", none, some [("K", "V")]⟩)]
     "a" ⟨"c1", none, none⟩ (by simp)⟩

/-! ## Claim C6 -/

/-- Counterexample to claim C6: the negative lookahead of the removal regex
checks only for the literal `mcp_servers` after `[`, so a following section
whose name merely begins with `mcp_servers` (here `[mcp_serversz]`, not an
`mcp_servers.*` section) is not a boundary and is removed together with the
preceding `[mcp_servers.old]` section, instead of being preserved
verbatim. -/
theorem C6_counterexample :
    countOcc "[mcp_serversz]"
        "[mcp_servers.old]\ncommand=\"x\"\n[mcp_serversz]\nk=2\n" = 1 ∧
    patchCodexToml "[mcp_servers.old]\ncommand=\"x\"\n[mcp_serversz]\nk=2\n"
        "NEW" = "\n\nNEW" ∧
    countOcc "[mcp_serversz]"
        (patchCodexToml "[mcp_servers.old]\ncommand=\"x\"\n[mcp_serversz]\nk=2\n"
          "NEW") = 0 :=
  ⟨by decide, by rfl, by decide⟩

/-- Claim C6 as amended: the TOML patch removes each prior `[mcp_servers.*]`
section up to the next newline-plus-bracket whose bracket is not followed by
the literal `mcp_servers` (so sections named like `[mcp_serversz]` are
swallowed too), trims trailing whitespace, and appends a blank line and the
new blocks; on the spec's scenarios — `[other]` before or after the
`[mcp_servers.old]` section — the `old` section is removed and `[other]` is
preserved with its content. -/
theorem C6_patchCodexToml_scenarios :
    patchCodexToml "[other]\nkey=1\n\n[mcp_servers.old]\ncommand=\"x\"\n"
        (toCodexToml [("foo", ⟨"npx", some ["-y", "bar"], none⟩)]) =
      "[other]\nkey=1\n\n[mcp_servers.foo]\ncommand = \"npx\"\nargs = [\"-y\", \"bar\"]\n\n" ∧
    ∀ newToml : String,
      patchCodexToml "[mcp_servers.old]\ncommand=\"x\"\n\n[other]\nkey=1\n"
          newToml = "\n[other]\nkey=1\n\n" ++ newToml :=
  ⟨by rfl, fun _ => rfl⟩

/-! ## Claim C7 -/

/-- Claim C7: converting the single-server map
`{servers: {foo: {command: "npx", args: ["-y", "bar"]}}}` to Codex TOML
yields exactly the header line, quoted command line, quoted-string args
array line and trailing blank line, with no env subsection. -/
theorem C7_toCodexToml_scenario :
    toCodexToml [("foo", ⟨"npx", some ["-y", "bar"], none⟩)] =
      "[mcp_servers.foo]\ncommand = \"npx\"\nargs = [\"-y\", \"bar\"]\n\n" := by
  rfl

/-! ## Claim C9 -/

theorem checkMcpCandidate_eq_some_iff (readF : String → Option String)
    (parseF : String → Option Json) (label path : String) (c : McpCandidate) :
    checkMcpCandidate readF parseF label path = some c ↔
      ∃ raw, readF path = some raw ∧ c.label = label ∧ c.path = path ∧
        0 < c.count ∧
        ((endsWithStr path ".toml" = true ∧
            c.count = countOcc "[mcp_servers." raw) ∨
         (endsWithStr path ".toml" = false ∧ ∃ data, parseF raw = some data ∧
            c.count = keysCount (jsOrChain data ["mcpServers", "servers", "mcp"]))) := by
  obtain ⟨cl, cp, cc⟩ := c
  unfold checkMcpCandidate
  cases hr : readF path with
  | none => simp
  | some raw =>
    cases he : endsWithStr path ".toml" with
    | true =>
      simp only [he, if_true]
      by_cases hc : countOcc "[mcp_servers." raw > 0
      · simp [hc, McpCandidate.mk.injEq]
        constructor
        · rintro ⟨h1, h2, h3⟩
          exact ⟨h1.symm, h2.symm, by omega, h3.symm⟩
        · rintro ⟨h1, h2, h3, h4⟩
          exact ⟨h1.symm, h2.symm, h4.symm⟩
      · simp [hc, McpCandidate.mk.injEq]
        intro h1 h2 h3 h4
        omega
    | false =>
      simp only [he, Bool.false_eq_true, if_false]
      cases hp : parseF raw with
      | none => simp [hp]
      | some data =>
        by_cases hc : keysCount (jsOrChain data ["mcpServers", "servers", "mcp"]) > 0
        · simp [hp, hc, McpCandidate.mk.injEq]
          constructor
          · rintro ⟨h1, h2, h3⟩
            exact ⟨h1.symm, h2.symm, by omega, h3.symm⟩
          · rintro ⟨h1, h2, h3, h4⟩
            exact ⟨h1.symm, h2.symm, h4.symm⟩
        · simp [hp, hc, McpCandidate.mk.injEq]
          intro h1 h2 h3 h4
          omega

/-- Claim C9: a candidate appears in the result of `detectMcpConfigs` iff
its location is one of the seven scanned ones, the file read succeeds, the
server count is computable per the file's format (TOML: occurrences of
`[mcp_servers.`; JSON: key count of the first truthy of `mcpServers`,
`servers`, `mcp`), and that count is positive; every failing or zero-count
location is silently omitted (the scan returns only candidates, never
errors). -/
theorem C9_detectMcpConfigs_iff (readF : String → Option String)
    (parseF : String → Option Json) (home mcpPath : String) (c : McpCandidate) :
    c ∈ detectMcpConfigs readF parseF home mcpPath ↔
      ∃ lp ∈ mcpChecks home mcpPath,
        ∃ raw, readF lp.2 = some raw ∧ c.label = lp.1 ∧ c.path = lp.2 ∧
          0 < c.count ∧
          ((endsWithStr lp.2 ".toml" = true ∧
              c.count = countOcc "[mcp_servers." raw) ∨
           (endsWithStr lp.2 ".toml" = false ∧ ∃ data, parseF raw = some data ∧
              c.count = keysCount (jsOrChain data ["mcpServers", "servers", "mcp"]))) := by
  unfold detectMcpConfigs
  rw [List.mem_filterMap]
  constructor
  · rintro ⟨lp, hmem, hchk⟩
    exact ⟨lp, hmem, (checkMcpCandidate_eq_some_iff readF parseF lp.1 lp.2 c).mp hchk⟩
  · rintro ⟨lp, hmem, hcond⟩
    exact ⟨lp, hmem, (checkMcpCandidate_eq_some_iff readF parseF lp.1 lp.2 c).mpr hcond⟩


/-! ## File-system lemmas -/


/-! Part A: lookupFS lemmas -/

theorem lookupFS_cons (p : String) (e : Entry) (fs : FS) (q : String) :
    lookupFS ((p, e) :: fs) q = if p = q then some e else lookupFS fs q := rfl

theorem lookupFS_cons_ne (p : String) (e : Entry) (fs : FS) (q : String)
    (h : q ≠ p) : lookupFS ((p, e) :: fs) q = lookupFS fs q := by
  rw [lookupFS_cons, if_neg (fun hh => h hh.symm)]

theorem lookupFS_filter_ne (fs : FS) (p q : String) (h : q ≠ p) :
    lookupFS (fs.filter (fun r => r.1 ≠ p)) q = lookupFS fs q := by
  induction fs with
  | nil => rfl
  | cons hd tl ih =>
    obtain ⟨a, e⟩ := hd
    by_cases ha : a = p
    · subst ha
      simp only [List.filter_cons]
      have : ¬ (a ≠ a) := fun hh => hh rfl
      simp only [decide_eq_true_eq]
      rw [if_neg this, lookupFS_cons_ne a e tl q h, ih]
    · simp only [List.filter_cons, decide_eq_true_eq]
      rw [if_pos ha, lookupFS_cons, lookupFS_cons, ih]

theorem lookupFS_filter_self (fs : FS) (p : String) :
    lookupFS (fs.filter (fun r => r.1 ≠ p)) p = none := by
  induction fs with
  | nil => rfl
  | cons hd tl ih =>
    obtain ⟨a, e⟩ := hd
    by_cases ha : a = p
    · subst ha
      simp only [List.filter_cons, decide_eq_true_eq]
      rw [if_neg (fun hh : a ≠ a => hh rfl)]
      exact ih
    · simp only [List.filter_cons, decide_eq_true_eq]
      rw [if_pos ha, lookupFS_cons, if_neg ha]
      exact ih



/-! Part B: path prefix lemmas -/

theorem underPath_iff (base q : String) :
    underPath base q = true ↔ (base ++ "/").data <+: q.data := by
  simp [underPath, List.isPrefixOf_iff_prefix]

theorem underEqB_iff (base q : String) :
    underEqB base q = true ↔ q = base ∨ (base ++ "/").data <+: q.data := by
  simp [underEqB, underPath_iff]

theorem strings_eq_of_data (a b : String) (h : a.data = b.data) : a = b := by
  cases a; cases b; exact congrArg String.mk h

theorem slash_data (R : String) : (R ++ "/").data = R.data ++ ['/'] := by
  rw [String.data_append]

theorem underPath_false_of_disjoint (S R q : String)
    (h5 : underEqB S R = false) (h6 : underEqB R S = false)
    (hq : underEqB S q = true) : underPath R q = false := by
  by_contra hc
  rw [Bool.not_eq_false, underPath_iff] at hc
  rw [underEqB_iff] at hq
  have h5x : ¬ (R = S ∨ (S ++ "/").data <+: R.data) := by
    rw [← underEqB_iff]; simp [h5]
  have h6x : ¬ (S = R ∨ (R ++ "/").data <+: S.data) := by
    rw [← underEqB_iff]; simp [h6]
  rcases hq with hq | hq
  · subst hq
    exact h6x (Or.inr hc)
  · rcases List.prefix_or_prefix_of_prefix hq hc with hp | hp
    · -- (S++"/").data <+: (R++"/").data
      rw [slash_data R] at hp
      have hlen := hp.length_le
      simp only [List.length_append, List.length_cons, List.length_nil] at hlen
      by_cases heq : (S ++ "/").data.length ≤ R.data.length
      · have : (S ++ "/").data <+: R.data :=
          List.prefix_of_prefix_length_le hp (List.prefix_append R.data ['/']) heq
        exact h5x (Or.inr this)
      · have hl2 : (S ++ "/").data.length = R.data.length + 1 := by omega
        have := hp.eq_of_length (by simpa using hl2)
        rw [slash_data S] at this
        have hSR : S.data = R.data := by
          exact List.append_cancel_right this
        exact h5x (Or.inl (strings_eq_of_data R S hSR.symm))
    · -- (R++"/").data <+: (S++"/").data
      rw [slash_data S] at hp
      have hlen := hp.length_le
      simp only [List.length_append, List.length_cons, List.length_nil] at hlen
      by_cases heq : (R ++ "/").data.length ≤ S.data.length
      · have : (R ++ "/").data <+: S.data :=
          List.prefix_of_prefix_length_le hp (List.prefix_append S.data ['/']) heq
        exact h6x (Or.inr this)
      · have hl2 : (R ++ "/").data.length = S.data.length + 1 := by omega
        have := hp.eq_of_length (by simpa using hl2)
        rw [slash_data R] at this
        have hRS : R.data = S.data := List.append_cancel_right this
        exact h5x (Or.inl (strings_eq_of_data R S hRS))

theorem ne_of_underEqB_false (S q : String) (h : underEqB S q = false) : q ≠ S := by
  intro hh
  subst hh
  simp [underEqB] at h

theorem underEqB_ne_base (S L q : String) (h2 : underEqB S L = false)
    (hq : underEqB S q = true) : q ≠ L := by
  intro hh
  subst hh
  exact Bool.noConfusion (hq.symm.trans h2)

theorem underPath_of_append (base x : String) :
    underPath base (base ++ "/" ++ x) = true := by
  rw [underPath_iff]
  have : (base ++ "/" ++ x).data = (base ++ "/").data ++ x.data := String.data_append _ _
  rw [this]
  exact List.prefix_append _ _

theorem underPath_trans (R dest q : String) (h1 : underPath R dest = true)
    (h2 : underPath dest q = true) : underPath R q = true := by
  rw [underPath_iff] at h1 h2 ⊢
  have hmid : dest.data <+: (dest ++ "/").data := by
    rw [slash_data]; exact List.prefix_append _ _
  exact (h1.trans hmid).trans h2

/-! Part C: mkdirList lemmas -/

theorem mkdirList_preserves : ∀ (l : List String) (fs : FS) (p : String),
    p ∉ l → lookupFS (mkdirList l fs).2 p = lookupFS fs p := by
  intro l
  induction l with
  | nil => intro fs p hp; rfl
  | cons q rest ih =>
    intro fs p hp
    have hpq : p ≠ q := fun hh => hp (hh ▸ List.mem_cons_self q rest)
    have hprest : p ∉ rest := fun hh => hp (List.mem_cons_of_mem q hh)
    unfold mkdirList
    cases hl : lookupFS fs q with
    | none =>
      rw [ih ((q, Entry.dir) :: fs) p hprest, lookupFS_cons_ne q Entry.dir fs p hpq]
    | some e =>
      cases e with
      | dir => exact ih fs p hprest
      | file => rfl
      | symlink t => rfl

theorem mkdirList_noop : ∀ (l : List String) (fs : FS),
    (∀ q ∈ l, lookupFS fs q = some Entry.dir) → mkdirList l fs = (.ok (), fs) := by
  intro l
  induction l with
  | nil => intro fs _; rfl
  | cons q rest ih =>
    intro fs h
    have hq := h q (List.mem_cons_self q rest)
    unfold mkdirList
    rw [hq]
    exact ih fs (fun r hr => h r (List.mem_cons_of_mem q hr))

theorem mkdirList_spec : ∀ (l : List String) (fs : FS),
    (∀ q ∈ l, lookupFS fs q = none ∨ lookupFS fs q = some Entry.dir) →
    (mkdirList l fs).1 = .ok () ∧
    (∀ q ∈ l, lookupFS (mkdirList l fs).2 q = some Entry.dir) ∧
    (∀ p, p ∉ l → lookupFS (mkdirList l fs).2 p = lookupFS fs p) := by
  intro l
  induction l with
  | nil =>
    intro fs _
    exact ⟨rfl, by simp, fun p _ => rfl⟩
  | cons q rest ih =>
    intro fs h
    have hq := h q (List.mem_cons_self q rest)
    rcases hq with hq | hq
    · -- create q
      have hrest : ∀ r ∈ rest, lookupFS ((q, Entry.dir) :: fs) r = none ∨
          lookupFS ((q, Entry.dir) :: fs) r = some Entry.dir := by
        intro r hr
        by_cases hrq : r = q
        · subst hrq
          right
          rw [lookupFS_cons, if_pos rfl]
        · rw [lookupFS_cons_ne q Entry.dir fs r hrq]
          exact h r (List.mem_cons_of_mem q hr)
      obtain ⟨ih1, ih2, ih3⟩ := ih ((q, Entry.dir) :: fs) hrest
      refine ⟨?_, ?_, ?_⟩
      · unfold mkdirList
        rw [hq]
        exact ih1
      · intro r hr
        rcases List.mem_cons.mp hr with hr | hr
        · subst hr
          by_cases hmem : r ∈ rest
          · have := ih2 r hmem
            unfold mkdirList
            rw [hq]
            exact this
          · unfold mkdirList
            rw [hq, ih3 r hmem, lookupFS_cons, if_pos rfl]
        · unfold mkdirList
          rw [hq]
          exact ih2 r hr
      · intro p hp
        have hpq : p ≠ q := fun hh => hp (hh ▸ List.mem_cons_self q rest)
        have hprest : p ∉ rest := fun hh => hp (List.mem_cons_of_mem q hh)
        unfold mkdirList
        rw [hq, ih3 p hprest, lookupFS_cons_ne q Entry.dir fs p hpq]
    · -- q exists as dir
      have hrest : ∀ r ∈ rest, lookupFS fs r = none ∨ lookupFS fs r = some Entry.dir :=
        fun r hr => h r (List.mem_cons_of_mem q hr)
      obtain ⟨ih1, ih2, ih3⟩ := ih fs hrest
      refine ⟨?_, ?_, ?_⟩
      · unfold mkdirList
        rw [hq]
        exact ih1
      · intro r hr
        rcases List.mem_cons.mp hr with hr | hr
        · subst hr
          by_cases hmem : r ∈ rest
          · have := ih2 r hmem
            unfold mkdirList
            rw [hq]
            exact this
          · unfold mkdirList
            rw [hq, ih3 r hmem]
            exact hq
        · unfold mkdirList
          rw [hq]
          exact ih2 r hr
      · intro p hp
        have hprest : p ∉ rest := fun hh => hp (List.mem_cons_of_mem q hh)
        unfold mkdirList
        rw [hq]
        exact ih3 p hprest

/-! Part D: rename lemma -/

theorem lookupFS_rename_map (fs : FS) (src dst q : String)
    (h1 : q ≠ src) (h2 : underPath src q = false)
    (h3 : q ≠ dst) (h4 : ∀ x : String, q ≠ dst ++ x) :
    lookupFS (fs.map (fun p => if p.1 = src then (dst, p.2)
      else if underPath src p.1 = true then (dst ++ p.1.drop src.length, p.2) else p)) q
      = lookupFS fs q := by
  induction fs with
  | nil => rfl
  | cons hd tl ih =>
    obtain ⟨a, e⟩ := hd
    by_cases ha : a = src
    · subst ha
      rw [List.map_cons]
      dsimp only
      rw [if_pos rfl]
      rw [lookupFS_cons_ne dst e _ q h3, lookupFS_cons_ne a e tl q h1]
      exact ih
    · by_cases hu : underPath src a = true
      · rw [List.map_cons]
        dsimp only
        rw [if_neg ha, if_pos hu]
        have hne : q ≠ dst ++ a.drop src.length := h4 (a.drop src.length)
        rw [lookupFS_cons_ne _ e _ q hne]
        by_cases haq : a = q
        · subst haq
          rw [hu] at h2
          exact absurd h2 (by simp)
        · rw [lookupFS_cons_ne a e tl q (fun hh => haq hh.symm)]
          exact ih
      · rw [List.map_cons]
        dsimp only
        rw [if_neg ha, if_neg hu]
        rw [lookupFS_cons, lookupFS_cons]
        by_cases haq : a = q
        · rw [if_pos haq, if_pos haq]
        · rw [if_neg haq, if_neg haq]
          exact ih

/-! Part E: primitive step equations under noFaults -/

theorem mkdirSyncRec_noFaults (p : String) (s : St) :
    mkdirSyncRec p noFaults s =
      ((mkdirList (pathPrefixes p) s.fs).1,
       { s with fs := (mkdirList (pathPrefixes p) s.fs).2, tick := s.tick + 1 }) := rfl

theorem lstatNoThrow_noFaults (p : String) (s : St) :
    lstatNoThrow p noFaults s =
      (.ok (lookupFS s.fs p), { s with tick := s.tick + 1 }) := rfl

theorem readlinkSync_noFaults_symlink (p t : String) (s : St)
    (h : lookupFS s.fs p = some (Entry.symlink t)) :
    readlinkSync p noFaults s = (.ok t, { s with tick := s.tick + 1 }) := by
  simp only [readlinkSync, prim, noFaults, h]

theorem unlinkSync_noFaults_symlink (p t : String) (s : St)
    (h : lookupFS s.fs p = some (Entry.symlink t)) :
    unlinkSync p noFaults s =
      (.ok (), { s with fs := s.fs.filter (fun r => r.1 ≠ p), tick := s.tick + 1 }) := by
  simp only [unlinkSync, prim, noFaults, h]

theorem symlinkSync_noFaults_free (target lp : String) (s : St)
    (h : lookupFS s.fs lp = none) :
    symlinkSync target lp noFaults s =
      (.ok (), { s with fs := (lp, Entry.symlink target) :: s.fs, tick := s.tick + 1 }) := by
  simp only [symlinkSync, prim, noFaults, h]

theorem createLinkWithFallback_noFaults_free (target lp : String) (s : St)
    (h : lookupFS s.fs lp = none) :
    createLinkWithFallback target lp noFaults s =
      (.ok (), { s with fs := (lp, Entry.symlink target) :: s.fs, tick := s.tick + 1 }) := by
  unfold createLinkWithFallback
  rw [symlinkSync_noFaults_free target lp s h]

theorem renameSync_noFaults_found (src dst : String) (s : St) (e : Entry)
    (h : lookupFS s.fs src = some e) :
    renameSync src dst noFaults s =
      (.ok (), { s with
        fs := s.fs.map (fun q =>
          if q.1 = src then (dst, q.2)
          else if underPath src q.1 = true then (dst ++ q.1.drop src.length, q.2)
          else q),
        tick := s.tick + 1 }) := by
  simp only [renameSync, prim, noFaults, h]

/-! Part F: branch lemmas for ensureSymlinkGo and claim C3 -/

theorem mkdirList_lookup_some : ∀ (l : List String) (fs : FS) (p : String) (e : Entry),
    lookupFS fs p = some e → lookupFS (mkdirList l fs).2 p = some e := by
  intro l
  induction l with
  | nil => intro fs p e h; exact h
  | cons q rest ih =>
    intro fs p e h
    unfold mkdirList
    cases hl : lookupFS fs q with
    | none =>
      have hpq : p ≠ q := fun hh => by rw [hh, hl] at h; exact Option.noConfusion h
      exact ih ((q, Entry.dir) :: fs) p e
        (by rw [lookupFS_cons_ne q Entry.dir fs p hpq]; exact h)
    | some e2 =>
      cases e2 with
      | dir => exact ih fs p e h
      | file => exact h
      | symlink t => exact h

theorem ensureSymlinkGo_create (target L onConflict name : String) (s : St)
    (hpar : ∀ q ∈ pathPrefixes (dirname L),
      lookupFS s.fs q = none ∨ lookupFS s.fs q = some Entry.dir)
    (hnl : L ∉ pathPrefixes (dirname L))
    (hnone : lookupFS s.fs L = none) :
    ensureSymlinkGo target L onConflict name noFaults s =
      (.ok { status := .ok, action := "created", name := name, linkPath := L,
             target := target, error := none },
       { s with
         fs := (L, Entry.symlink target) ::
           (mkdirList (pathPrefixes (dirname L)) s.fs).2,
         tick := s.tick + 3 }) := by
  obtain ⟨hok, hdirs, hpres⟩ := mkdirList_spec (pathPrefixes (dirname L)) s.fs hpar
  have hL1 : lookupFS (mkdirList (pathPrefixes (dirname L)) s.fs).2 L = none := by
    rw [hpres L hnl]; exact hnone
  unfold ensureSymlinkGo
  rw [mkdirSyncRec_noFaults, hok]
  simp only [bindE]
  rw [lstatNoThrow_noFaults]
  simp only [bindE]
  simp only [hL1]
  rw [createLinkWithFallback_noFaults_free _ _ _ hL1]

theorem ensureSymlinkGo_already (target L onConflict name : String) (s : St)
    (hpar : ∀ q ∈ pathPrefixes (dirname L), lookupFS s.fs q = some Entry.dir)
    (hlink : lookupFS s.fs L = some (Entry.symlink target))
    (htgt : startsWithStr target "/" = true) :
    ensureSymlinkGo target L onConflict name noFaults s =
      (.ok { status := .skip, action := "already_correct", name := name,
             linkPath := L, target := target, error := none },
       { s with tick := s.tick + 3 }) := by
  have hres : resolveSymlinkTarget L target = target := by
    unfold resolveSymlinkTarget
    rw [if_pos htgt]
  unfold ensureSymlinkGo
  rw [mkdirSyncRec_noFaults, mkdirList_noop (pathPrefixes (dirname L)) s.fs hpar]
  simp only [bindE]
  rw [lstatNoThrow_noFaults]
  simp only [bindE]
  simp only [hlink]
  rw [readlinkSync_noFaults_symlink L target ⟨s.fs, s.ctx, s.tick + 1 + 1⟩ hlink]
  simp only [bindE]
  rw [hres]
  rw [if_pos (rfl : target = target)]

/-! ## Claim C3 -/

/-- Counterexample to claim C3: with a relative desired target (`"t"`), the
first call creates the link, but the second call resolves the stored raw
target against the link's parent directory, obtains `/a/t` which differs
from the raw `"t"`, and replaces the symlink (action `replace_symlink`,
status ok) instead of reporting `already_correct`; the claim's "for every
pair" therefore fails for relative targets (the file system state is still
unchanged). -/
theorem C3_counterexample :
    (ensureSymlinkSafe "/h" "2026-02-27" "t" "/a/b" {} noFaults
      ⟨[], ⟨"/x", 0⟩, 0⟩).1.action = "created" ∧
    (ensureSymlinkSafe "/h" "2026-02-27" "t" "/a/b" {} noFaults
      (ensureSymlinkSafe "/h" "2026-02-27" "t" "/a/b" {} noFaults
        ⟨[], ⟨"/x", 0⟩, 0⟩).2).1.action = "replace_symlink" ∧
    (ensureSymlinkSafe "/h" "2026-02-27" "t" "/a/b" {} noFaults
      (ensureSymlinkSafe "/h" "2026-02-27" "t" "/a/b" {} noFaults
        ⟨[], ⟨"/x", 0⟩, 0⟩).2).1.status = Status.ok ∧
    ("replace_symlink" : String) ≠ "already_correct" := by
  decide

/-- Claim C3 as amended: for an absolute desired target, a link path with a
well-formed creatable parent (every prefix of the parent absent or a
directory, and the link path not one of those prefixes), and no entry at
the link path, running the reconciler twice with identical arguments and no
I/O faults yields `created` (status ok) then `already_correct` (status
skip), and the file system after the second run equals the one after the
first. -/
theorem C3_link_reconciler_idempotent (home date target L : String)
    (opts : SymlinkOpts) (s : St)
    (htgt : startsWithStr target "/" = true)
    (hnone : lookupFS s.fs L = none)
    (hpar : ∀ q ∈ pathPrefixes (dirname L),
      lookupFS s.fs q = none ∨ lookupFS s.fs q = some Entry.dir)
    (hnl : L ∉ pathPrefixes (dirname L)) :
    (ensureSymlinkSafe home date target L opts noFaults s).1.status = Status.ok ∧
    (ensureSymlinkSafe home date target L opts noFaults s).1.action = "created" ∧
    (ensureSymlinkSafe home date target L opts noFaults
      (ensureSymlinkSafe home date target L opts noFaults s).2).1.status = Status.skip ∧
    (ensureSymlinkSafe home date target L opts noFaults
      (ensureSymlinkSafe home date target L opts noFaults s).2).1.action = "already_correct" ∧
    (ensureSymlinkSafe home date target L opts noFaults
      (ensureSymlinkSafe home date target L opts noFaults s).2).2.fs =
      (ensureSymlinkSafe home date target L opts noFaults s).2.fs := by
  obtain ⟨hok, hdirs, hpres⟩ := mkdirList_spec (pathPrefixes (dirname L)) s.fs hpar
  have hgo1 := ensureSymlinkGo_create target L (opts.onConflict.getD "backup")
    (opts.name.getD "link")
    { s with ctx := opts.backupContext.getD (createBackupContext home date) }
    hpar hnl hnone
  have e1 : ensureSymlinkSafe home date target L opts noFaults s =
      ({ status := .ok, action := "created", name := opts.name.getD "link",
         linkPath := L, target := target, error := none },
       { s with
         ctx := opts.backupContext.getD (createBackupContext home date),
         fs := (L, Entry.symlink target) ::
           (mkdirList (pathPrefixes (dirname L)) s.fs).2,
         tick := s.tick + 3 }) := by
    simp only [ensureSymlinkSafe]
    rw [hgo1]
  set st1 : St :=
    { s with
      ctx := opts.backupContext.getD (createBackupContext home date),
      fs := (L, Entry.symlink target) ::
        (mkdirList (pathPrefixes (dirname L)) s.fs).2,
      tick := s.tick + 3 } with hst1
  have hpar2 : ∀ q ∈ pathPrefixes (dirname L),
      lookupFS st1.fs q = some Entry.dir := by
    intro q hq
    have hqL : q ≠ L := fun hh => hnl (hh ▸ hq)
    rw [hst1]
    rw [lookupFS_cons_ne L (Entry.symlink target) _ q hqL]
    exact hdirs q hq
  have hlink2 : lookupFS st1.fs L = some (Entry.symlink target) := by
    rw [hst1]
    rw [lookupFS_cons, if_pos (rfl : L = L)]
  have hgo2 := ensureSymlinkGo_already target L (opts.onConflict.getD "backup")
    (opts.name.getD "link")
    { st1 with ctx := opts.backupContext.getD (createBackupContext home date) }
    hpar2 hlink2 htgt
  have e2 : ensureSymlinkSafe home date target L opts noFaults st1 =
      ({ status := .skip, action := "already_correct", name := opts.name.getD "link",
         linkPath := L, target := target, error := none },
       { st1 with
         ctx := opts.backupContext.getD (createBackupContext home date),
         tick := st1.tick + 3 }) := by
    simp only [ensureSymlinkSafe]
    rw [hgo2]
  rw [e1]
  dsimp only
  rw [e2]
  exact ⟨rfl, rfl, rfl, rfl, rfl⟩

/-- Witness for C3 on an empty file system: target `/t`, link `/a/b`. -/
theorem C3_witness :
    (startsWithStr "/t" "/" = true ∧
     lookupFS (([] : FS)) "/a/b" = none ∧
     (∀ q ∈ pathPrefixes (dirname "/a/b"),
       lookupFS ([] : FS) q = none ∨ lookupFS ([] : FS) q = some Entry.dir) ∧
     "/a/b" ∉ pathPrefixes (dirname "/a/b")) ∧
    ((ensureSymlinkSafe "/h" "2026-02-27" "/t" "/a/b" {} noFaults
        ⟨[], ⟨"/x", 0⟩, 0⟩).1.status = Status.ok ∧
     (ensureSymlinkSafe "/h" "2026-02-27" "/t" "/a/b" {} noFaults
        ⟨[], ⟨"/x", 0⟩, 0⟩).1.action = "created" ∧
     (ensureSymlinkSafe "/h" "2026-02-27" "/t" "/a/b" {} noFaults
        (ensureSymlinkSafe "/h" "2026-02-27" "/t" "/a/b" {} noFaults
          ⟨[], ⟨"/x", 0⟩, 0⟩).2).1.status = Status.skip ∧
     (ensureSymlinkSafe "/h" "2026-02-27" "/t" "/a/b" {} noFaults
        (ensureSymlinkSafe "/h" "2026-02-27" "/t" "/a/b" {} noFaults
          ⟨[], ⟨"/x", 0⟩, 0⟩).2).1.action = "already_correct" ∧
     (ensureSymlinkSafe "/h" "2026-02-27" "/t" "/a/b" {} noFaults
        (ensureSymlinkSafe "/h" "2026-02-27" "/t" "/a/b" {} noFaults
          ⟨[], ⟨"/x", 0⟩, 0⟩).2).2.fs =
       (ensureSymlinkSafe "/h" "2026-02-27" "/t" "/a/b" {} noFaults
          ⟨[], ⟨"/x", 0⟩, 0⟩).2.fs) :=
  ⟨⟨by decide, by decide, by decide, by decide⟩,
   C3_link_reconciler_idempotent "/h" "2026-02-27" "/t" "/a/b" {}
     ⟨[], ⟨"/x", 0⟩, 0⟩ (by decide) (by decide) (by decide) (by decide)⟩

/-! Part G: helper lemmas for the preservation theorem -/

theorem strAppend_assoc (a b c : String) : (a ++ b) ++ c = a ++ (b ++ c) :=
  strings_eq_of_data _ _ (by simp [String.data_append, List.append_assoc])

theorem ne_append_of_not_under (R q : String) (h : underPath R q = false) :
    ∀ y : String, q ≠ (R ++ "/") ++ y := by
  intro y hy
  have : underPath R q = true := by
    rw [underPath_iff, hy, String.data_append]
    exact List.prefix_append _ _
  rw [this] at h
  exact Bool.noConfusion h

theorem lookupFS_rename_map_src (fs : FS) (src dst : String)
    (hd1 : src ≠ dst) (hd2 : ∀ x : String, src ≠ dst ++ x) :
    lookupFS (fs.map (fun p => if p.1 = src then (dst, p.2)
      else if underPath src p.1 = true then (dst ++ p.1.drop src.length, p.2) else p)) src
      = none := by
  induction fs with
  | nil => rfl
  | cons hd tl ih =>
    obtain ⟨a, e⟩ := hd
    by_cases ha : a = src
    · subst ha
      rw [List.map_cons]
      dsimp only
      rw [if_pos rfl]
      rw [lookupFS_cons_ne dst e _ a (fun hh => hd1 hh)]
      exact ih
    · by_cases hu : underPath src a = true
      · rw [List.map_cons]
        dsimp only
        rw [if_neg ha, if_pos hu]
        rw [lookupFS_cons_ne _ e _ src (hd2 (a.drop src.length))]
        exact ih
      · rw [List.map_cons]
        dsimp only
        rw [if_neg ha, if_neg hu]
        rw [lookupFS_cons_ne a e _ src (fun hh => ha hh.symm)]
        exact ih

theorem ensureSymlinkGo_preserves (target L onConflict name S : String) (s : St)
    (hA : ∀ p ∈ pathPrefixes (dirname L), underEqB S p = false)
    (h2 : underEqB S L = false)
    (h3 : underEqB L S = false)
    (hD : ∀ p ∈ pathPrefixes s.ctx.root, underEqB S p = false)
    (h5 : underEqB S s.ctx.root = false)
    (h6 : underEqB s.ctx.root S = false)
    (h7 : underPath s.ctx.root L = false) :
    (∀ q, underEqB S q = true →
      lookupFS (ensureSymlinkGo target L onConflict name noFaults s).2.fs q =
        lookupFS s.fs q) ∧
    (ensureSymlinkGo target L onConflict name noFaults s).2.ctx.root = s.ctx.root ∧
    (∀ r s1, ensureSymlinkGo target L onConflict name noFaults s = (.ok r, s1) →
      r.linkPath = L) := by
  have hqneL : ∀ q, underEqB S q = true → q ≠ L :=
    fun q hq => underEqB_ne_base S L q h2 hq
  have hquL : ∀ q, underEqB S q = true → underPath L q = false :=
    fun q hq => underPath_false_of_disjoint S L q h2 h3 hq
  have hquR : ∀ q, underEqB S q = true → underPath s.ctx.root q = false :=
    fun q hq => underPath_false_of_disjoint S s.ctx.root q h5 h6 hq
  have pres1 : ∀ q, underEqB S q = true →
      lookupFS (mkdirList (pathPrefixes (dirname L)) s.fs).2 q = lookupFS s.fs q := by
    intro q hq
    refine mkdirList_preserves (pathPrefixes (dirname L)) s.fs q ?_
    intro hmem
    have hx := hA q hmem
    rw [hq] at hx
    exact Bool.noConfusion hx
  unfold ensureSymlinkGo
  rw [mkdirSyncRec_noFaults]
  cases hmk : (mkdirList (pathPrefixes (dirname L)) s.fs).1 with
  | error e =>
    simp only [bindE]
    refine ⟨pres1, by trivial, ?_⟩
    intro r s1 h
    simp at h
  | ok u =>
    cases u
    simp only [bindE]
    rw [lstatNoThrow_noFaults]
    simp only [bindE]
    cases hL : lookupFS (mkdirList (pathPrefixes (dirname L)) s.fs).2 L with
    | none =>
      rw [createLinkWithFallback_noFaults_free target L _ hL]
      refine ⟨?_, by trivial, ?_⟩
      · intro q hq
        dsimp only
        rw [lookupFS_cons_ne L (Entry.symlink target) _ q (hqneL q hq)]
        exact pres1 q hq
      · intro r s1 h
        simp only [Prod.mk.injEq, Except.ok.injEq] at h
        rw [← h.1]
    | some entry =>
      cases entry with
      | symlink t =>
        rw [readlinkSync_noFaults_symlink L t _ hL]
        simp only [bindE]
        by_cases hrt : resolveSymlinkTarget L t = target
        · rw [if_pos hrt]
          refine ⟨?_, by trivial, ?_⟩
          · intro q hq
            exact pres1 q hq
          · intro r s1 h
            simp only [Prod.mk.injEq, Except.ok.injEq] at h
            rw [← h.1]
        · rw [if_neg hrt]
          rw [unlinkSync_noFaults_symlink L t _ hL]
          simp only [bindE]
          have hLfree : lookupFS
              ((mkdirList (pathPrefixes (dirname L)) s.fs).2.filter
                (fun r => r.1 ≠ L)) L = none :=
            lookupFS_filter_self _ L
          rw [createLinkWithFallback_noFaults_free target L _ hLfree]
          refine ⟨?_, by trivial, ?_⟩
          · intro q hq
            dsimp only
            rw [lookupFS_cons_ne L (Entry.symlink target) _ q (hqneL q hq)]
            rw [lookupFS_filter_ne _ L q (hqneL q hq)]
            exact pres1 q hq
          · intro r s1 h
            simp only [Prod.mk.injEq, Except.ok.injEq] at h
            rw [← h.1]
      | file =>
        by_cases hoc : onConflict = "skip"
        · rw [if_pos hoc]
          refine ⟨pres1, by trivial, ?_⟩
          intro r s1 h
          simp only [Prod.mk.injEq, Except.ok.injEq] at h
          rw [← h.1]
        · rw [if_neg hoc]
          unfold movePathToBackup
          rw [mkdirSyncRec_noFaults]
          dsimp only
          have presR : ∀ q, underEqB S q = true →
              lookupFS (mkdirList (pathPrefixes s.ctx.root)
                (mkdirList (pathPrefixes (dirname L)) s.fs).2).2 q =
              lookupFS (mkdirList (pathPrefixes (dirname L)) s.fs).2 q := by
            intro q hq
            refine mkdirList_preserves _ _ q ?_
            intro hmem
            have hx := hD q hmem
            rw [hq] at hx
            exact Bool.noConfusion hx
          cases hmk2 : (mkdirList (pathPrefixes s.ctx.root)
              (mkdirList (pathPrefixes (dirname L)) s.fs).2).1 with
          | error e2 =>
            simp only [bindE]
            refine ⟨?_, by trivial, ?_⟩
            · intro q hq
              rw [presR q hq]
              exact pres1 q hq
            · intro r s1 h
              simp at h
          | ok u2 =>
            cases u2
            simp only [bindE]
            have hDform : s.ctx.root ++ "/" ++ flattenPathName L ++ "_" ++
                toString s.ctx.count =
                (s.ctx.root ++ "/") ++
                  (flattenPathName L ++ "_" ++ toString s.ctx.count) := by
              simp only [strAppend_assoc]
            have hd1 : L ≠ s.ctx.root ++ "/" ++ flattenPathName L ++ "_" ++
                toString s.ctx.count := by
              rw [hDform]
              exact ne_append_of_not_under s.ctx.root L h7 _
            have hd2 : ∀ x : String, L ≠ (s.ctx.root ++ "/" ++ flattenPathName L ++
                "_" ++ toString s.ctx.count) ++ x := by
              intro x
              rw [hDform, strAppend_assoc]
              exact ne_append_of_not_under s.ctx.root L h7 _
            have hsrc := mkdirList_lookup_some (pathPrefixes s.ctx.root)
              (mkdirList (pathPrefixes (dirname L)) s.fs).2 L Entry.file hL
            rw [renameSync_noFaults_found L _ _ Entry.file hsrc]
            simp only [bindE]
            have hfree := lookupFS_rename_map_src
              (mkdirList (pathPrefixes s.ctx.root)
                (mkdirList (pathPrefixes (dirname L)) s.fs).2).2 L
              (s.ctx.root ++ "/" ++ flattenPathName L ++ "_" ++ toString s.ctx.count)
              hd1 hd2
            rw [createLinkWithFallback_noFaults_free target L _ hfree]
            refine ⟨?_, by trivial, ?_⟩
            · intro q hq
              have hq3 : q ≠ s.ctx.root ++ "/" ++ flattenPathName L ++ "_" ++
                  toString s.ctx.count := by
                rw [hDform]
                exact ne_append_of_not_under s.ctx.root q (hquR q hq) _
              have hq4 : ∀ x : String, q ≠ (s.ctx.root ++ "/" ++ flattenPathName L ++
                  "_" ++ toString s.ctx.count) ++ x := by
                intro x
                rw [hDform, strAppend_assoc]
                exact ne_append_of_not_under s.ctx.root q (hquR q hq) _
              dsimp only
              rw [lookupFS_cons_ne L (Entry.symlink target) _ q (hqneL q hq)]
              rw [lookupFS_rename_map _ L _ q (hqneL q hq) (hquL q hq) hq3 hq4]
              rw [presR q hq]
              exact pres1 q hq
            · intro r s1 h
              simp only [Prod.mk.injEq, Except.ok.injEq] at h
              rw [← h.1]
      | dir =>
        by_cases hoc : onConflict = "skip"
        · rw [if_pos hoc]
          refine ⟨pres1, by trivial, ?_⟩
          intro r s1 h
          simp only [Prod.mk.injEq, Except.ok.injEq] at h
          rw [← h.1]
        · rw [if_neg hoc]
          unfold movePathToBackup
          rw [mkdirSyncRec_noFaults]
          dsimp only
          have presR : ∀ q, underEqB S q = true →
              lookupFS (mkdirList (pathPrefixes s.ctx.root)
                (mkdirList (pathPrefixes (dirname L)) s.fs).2).2 q =
              lookupFS (mkdirList (pathPrefixes (dirname L)) s.fs).2 q := by
            intro q hq
            refine mkdirList_preserves _ _ q ?_
            intro hmem
            have hx := hD q hmem
            rw [hq] at hx
            exact Bool.noConfusion hx
          cases hmk2 : (mkdirList (pathPrefixes s.ctx.root)
              (mkdirList (pathPrefixes (dirname L)) s.fs).2).1 with
          | error e2 =>
            simp only [bindE]
            refine ⟨?_, by trivial, ?_⟩
            · intro q hq
              rw [presR q hq]
              exact pres1 q hq
            · intro r s1 h
              simp at h
          | ok u2 =>
            cases u2
            simp only [bindE]
            have hDform : s.ctx.root ++ "/" ++ flattenPathName L ++ "_" ++
                toString s.ctx.count =
                (s.ctx.root ++ "/") ++
                  (flattenPathName L ++ "_" ++ toString s.ctx.count) := by
              simp only [strAppend_assoc]
            have hd1 : L ≠ s.ctx.root ++ "/" ++ flattenPathName L ++ "_" ++
                toString s.ctx.count := by
              rw [hDform]
              exact ne_append_of_not_under s.ctx.root L h7 _
            have hd2 : ∀ x : String, L ≠ (s.ctx.root ++ "/" ++ flattenPathName L ++
                "_" ++ toString s.ctx.count) ++ x := by
              intro x
              rw [hDform, strAppend_assoc]
              exact ne_append_of_not_under s.ctx.root L h7 _
            have hsrc := mkdirList_lookup_some (pathPrefixes s.ctx.root)
              (mkdirList (pathPrefixes (dirname L)) s.fs).2 L Entry.dir hL
            rw [renameSync_noFaults_found L _ _ Entry.dir hsrc]
            simp only [bindE]
            have hfree := lookupFS_rename_map_src
              (mkdirList (pathPrefixes s.ctx.root)
                (mkdirList (pathPrefixes (dirname L)) s.fs).2).2 L
              (s.ctx.root ++ "/" ++ flattenPathName L ++ "_" ++ toString s.ctx.count)
              hd1 hd2
            rw [createLinkWithFallback_noFaults_free target L _ hfree]
            refine ⟨?_, by trivial, ?_⟩
            · intro q hq
              have hq3 : q ≠ s.ctx.root ++ "/" ++ flattenPathName L ++ "_" ++
                  toString s.ctx.count := by
                rw [hDform]
                exact ne_append_of_not_under s.ctx.root q (hquR q hq) _
              have hq4 : ∀ x : String, q ≠ (s.ctx.root ++ "/" ++ flattenPathName L ++
                  "_" ++ toString s.ctx.count) ++ x := by
                intro x
                rw [hDform, strAppend_assoc]
                exact ne_append_of_not_under s.ctx.root q (hquR q hq) _
              dsimp only
              rw [lookupFS_cons_ne L (Entry.symlink target) _ q (hqneL q hq)]
              rw [lookupFS_rename_map _ L _ q (hqneL q hq) (hquL q hq) hq3 hq4]
              rw [presR q hq]
              exact pres1 q hq
            · intro r s1 h
              simp only [Prod.mk.injEq, Except.ok.injEq] at h
              rw [← h.1]

theorem append_ne_of_ne (cwd a b : String) (h : a ≠ b) : cwd ++ a ≠ cwd ++ b := by
  intro hh
  apply h
  have hd := congrArg String.data hh
  rw [String.data_append, String.data_append] at hd
  exact strings_eq_of_data a b (List.append_cancel_left hd)

theorem ensureSymlinkSafe_preserves (home date target L S : String)
    (opts : SymlinkOpts) (s : St)
    (hA : ∀ p ∈ pathPrefixes (dirname L), underEqB S p = false)
    (h2 : underEqB S L = false)
    (h3 : underEqB L S = false)
    (hD : ∀ p ∈ pathPrefixes
      ((opts.backupContext.getD (createBackupContext home date)).root),
      underEqB S p = false)
    (h5 : underEqB S
      ((opts.backupContext.getD (createBackupContext home date)).root) = false)
    (h6 : underEqB
      ((opts.backupContext.getD (createBackupContext home date)).root) S = false)
    (h7 : underPath
      ((opts.backupContext.getD (createBackupContext home date)).root) L = false) :
    (∀ q, underEqB S q = true →
      lookupFS (ensureSymlinkSafe home date target L opts noFaults s).2.fs q =
        lookupFS s.fs q) ∧
    (ensureSymlinkSafe home date target L opts noFaults s).2.ctx.root =
      (opts.backupContext.getD (createBackupContext home date)).root ∧
    (ensureSymlinkSafe home date target L opts noFaults s).1.linkPath = L := by
  have hgo := ensureSymlinkGo_preserves target L (opts.onConflict.getD "backup")
    (opts.name.getD "link") S
    { s with ctx := opts.backupContext.getD (createBackupContext home date) }
    hA h2 h3 hD h5 h6 h7
  simp only [ensureSymlinkSafe]
  rcases hres : ensureSymlinkGo target L (opts.onConflict.getD "backup")
      (opts.name.getD "link") noFaults
      { s with ctx := opts.backupContext.getD (createBackupContext home date) }
    with ⟨res, s1⟩
  rw [hres] at hgo
  cases res with
  | ok r =>
    exact ⟨hgo.1, hgo.2.1, hgo.2.2 r s1 rfl⟩
  | error e =>
    exact ⟨hgo.1, hgo.2.1, rfl⟩

theorem syncSkillsGo_preserves (home date canonicalPath sourcePath R : String) :
    ∀ (targets : List (String × String)) (s : St),
    s.ctx.root = R →
    (∀ nt ∈ targets, nt.2 ≠ sourcePath →
      (∀ p ∈ pathPrefixes (dirname nt.2), underEqB sourcePath p = false) ∧
      underEqB sourcePath nt.2 = false ∧
      underEqB nt.2 sourcePath = false ∧
      underPath R nt.2 = false) →
    (∀ p ∈ pathPrefixes R, underEqB sourcePath p = false) →
    underEqB sourcePath R = false →
    underEqB R sourcePath = false →
    (∀ l ∈ (syncSkillsGo home date canonicalPath sourcePath targets noFaults s).1,
      l.linkPath = sourcePath → l.status = Status.skip ∧ l.action = "is_source") ∧
    ((∃ nt ∈ targets, nt.2 = sourcePath) →
      ∃ l ∈ (syncSkillsGo home date canonicalPath sourcePath targets noFaults s).1,
        l.linkPath = sourcePath ∧ l.status = Status.skip ∧ l.action = "is_source") ∧
    (∀ q, underEqB sourcePath q = true →
      lookupFS
        (syncSkillsGo home date canonicalPath sourcePath targets noFaults s).2.fs q =
        lookupFS s.fs q) ∧
    (syncSkillsGo home date canonicalPath sourcePath targets noFaults s).2.ctx.root
      = R := by
  intro targets
  induction targets with
  | nil =>
    intro s hctx htg hD h5 h6
    refine ⟨?_, ?_, fun q _ => rfl, hctx⟩
    · intro l hl
      simp [syncSkillsGo] at hl
    · intro hex
      simp at hex
  | cons nt rest ih =>
    intro s hctx htg hD h5 h6
    obtain ⟨name, tp⟩ := nt
    by_cases htp : tp = sourcePath
    · simp only [syncSkillsGo, if_pos htp]
      obtain ⟨ih1, ih2, ih3, ih4⟩ := ih s hctx
        (fun nt2 hmem hne => htg nt2 (List.mem_cons_of_mem _ hmem) hne) hD h5 h6
      refine ⟨?_, ?_, ih3, ih4⟩
      · intro l hl hlp
        rcases List.mem_cons.mp hl with hl | hl
        · subst hl
          exact ⟨rfl, rfl⟩
        · exact ih1 l hl hlp
      · intro _
        exact ⟨{ status := .skip, action := "is_source", name := name,
                 linkPath := tp, target := sourcePath, error := none },
               List.mem_cons_self _ _, htp, rfl, rfl⟩
    · simp only [syncSkillsGo, if_neg htp]
      rw [← apply_ite (fun tgt => ensureSymlinkSafe home date tgt tp
        { onConflict := some "backup", backupContext := some s.ctx,
          name := some name } noFaults s)]
      obtain ⟨hcA, hc2, hc3, hc7⟩ := htg (name, tp) (List.mem_cons_self _ _) htp
      have hD' : ∀ p ∈ pathPrefixes s.ctx.root, underEqB sourcePath p = false := by
        rw [hctx]; exact hD
      have h5' : underEqB sourcePath s.ctx.root = false := by rw [hctx]; exact h5
      have h6' : underEqB s.ctx.root sourcePath = false := by rw [hctx]; exact h6
      have h7' : underPath s.ctx.root tp = false := by rw [hctx]; exact hc7
      have hcall := ensureSymlinkSafe_preserves home date
        (if tp = canonicalPath ∧ sourcePath ≠ canonicalPath then sourcePath
         else canonicalPath) tp sourcePath
        { onConflict := some "backup", backupContext := some s.ctx,
          name := some name } s hcA hc2 hc3 hD' h5' h6' h7'
      have hctx2 : (ensureSymlinkSafe home date
          (if tp = canonicalPath ∧ sourcePath ≠ canonicalPath then sourcePath
           else canonicalPath) tp
          { onConflict := some "backup", backupContext := some s.ctx,
            name := some name } noFaults s).2.ctx.root = R := by
        rw [hcall.2.1]; exact hctx
      obtain ⟨ih1, ih2, ih3, ih4⟩ := ih _ hctx2
        (fun nt2 hmem hne => htg nt2 (List.mem_cons_of_mem _ hmem) hne) hD h5 h6
      refine ⟨?_, ?_, ?_, ih4⟩
      · intro l hl hlp
        rcases List.mem_cons.mp hl with hl | hl
        · subst hl
          rw [hcall.2.2] at hlp
          exact absurd hlp htp
        · exact ih1 l hl hlp
      · intro hex
        rcases hex with ⟨nt2, hmem, hnt2⟩
        rcases List.mem_cons.mp hmem with hh | hh
        · rw [hh] at hnt2
          exact absurd hnt2 htp
        · obtain ⟨l, hl, hlp⟩ := ih2 ⟨nt2, hh, hnt2⟩
          exact ⟨l, List.mem_cons_of_mem _ hl, hlp⟩
      · intro q hq
        rw [ih3 q hq]
        exact hcall.1 q hq

/-! ## Claim C10 -/

/-- Counterexample to claim C10: with the agent-sync home configured inside
the project's canonical skills path (`AGENT_SYNC_HOME = /p/.agent/skills`),
reconciling a conflict at `/p/.claude/skills` creates the backup root below
the source path, so `syncSkills` creates a directory at the source path
`/p/.agent/skills` even though that path's entry has status skip and action
`is_source`: the "no filesystem mutation at that path" part fails. -/
theorem C10_counterexample :
    lookupFS [("/p", Entry.dir), ("/p/.agents", Entry.dir),
      ("/p/.agents/skills", Entry.dir), ("/p/.claude", Entry.dir),
      ("/p/.claude/skills", Entry.dir)] "/p/.agent/skills" = none ∧
    lookupFS (syncSkills "/p/.agent/skills" "2026-02-27" "/p"
        "/p/.agent/skills" noFaults
        ⟨[("/p", Entry.dir), ("/p/.agents", Entry.dir),
          ("/p/.agents/skills", Entry.dir), ("/p/.claude", Entry.dir),
          ("/p/.claude/skills", Entry.dir)], ⟨"/x", 0⟩, 0⟩).2.fs
      "/p/.agent/skills" = some Entry.dir := by
  decide

/-- Claim C10 as amended: when the source path is string-equal to one of
the three targets of `syncSkills` and the backup root
`<home>/backups/<date>` does not collide with the source path or the other
targets (the listed disjointness side conditions), the result entry for the
source target - and only for it - has status skip and action `is_source`,
and the run changes nothing at the source path or anywhere below it. -/
theorem C10_syncSkills_source_untouched (home date cwd S : String) (s : St)
    (hsrc : S = cwd ++ "/.agent/skills" ∨ S = cwd ++ "/.agents/skills" ∨
      S = cwd ++ "/.claude/skills")
    (htg : ∀ nt ∈ ([("agent_skills", cwd ++ "/.agent/skills"),
        ("agents_skills", cwd ++ "/.agents/skills"),
        ("claude_skills", cwd ++ "/.claude/skills")] : List (String × String)),
      nt.2 ≠ S →
      (∀ p ∈ pathPrefixes (dirname nt.2), underEqB S p = false) ∧
      underEqB S nt.2 = false ∧ underEqB nt.2 S = false ∧
      underPath (home ++ "/backups/" ++ date) nt.2 = false)
    (hD : ∀ p ∈ pathPrefixes (home ++ "/backups/" ++ date),
      underEqB S p = false)
    (h5 : underEqB S (home ++ "/backups/" ++ date) = false)
    (h6 : underEqB (home ++ "/backups/" ++ date) S = false) :
    (∀ l ∈ (syncSkills home date cwd S noFaults s).1.links,
      l.linkPath = S → l.status = Status.skip ∧ l.action = "is_source") ∧
    (∃ l ∈ (syncSkills home date cwd S noFaults s).1.links,
      l.linkPath = S ∧ l.status = Status.skip ∧ l.action = "is_source") ∧
    (∀ q, underEqB S q = true →
      lookupFS (syncSkills home date cwd S noFaults s).2.fs q =
        lookupFS s.fs q) := by
  have hgo := syncSkillsGo_preserves home date (cwd ++ "/.agent/skills") S
    (home ++ "/backups/" ++ date)
    [("agent_skills", cwd ++ "/.agent/skills"),
     ("agents_skills", cwd ++ "/.agents/skills"),
     ("claude_skills", cwd ++ "/.claude/skills")]
    { s with ctx := createBackupContext home date } rfl htg hD h5 h6
  have hex : ∃ nt ∈ ([("agent_skills", cwd ++ "/.agent/skills"),
      ("agents_skills", cwd ++ "/.agents/skills"),
      ("claude_skills", cwd ++ "/.claude/skills")] : List (String × String)),
      nt.2 = S := by
    rcases hsrc with h | h | h
    · exact ⟨("agent_skills", cwd ++ "/.agent/skills"), by simp, h.symm⟩
    · exact ⟨("agents_skills", cwd ++ "/.agents/skills"), by simp, h.symm⟩
    · exact ⟨("claude_skills", cwd ++ "/.claude/skills"), by simp, h.symm⟩
  exact ⟨hgo.1, hgo.2.1 hex, hgo.2.2.1⟩

/-- Witness for C10: project `/proj`, agent-sync home `/h`, source path
`/proj/.agent/skills`, empty initial file system. -/
theorem C10_witness :
    ((("/proj/.agent/skills" : String) = "/proj" ++ "/.agent/skills" ∨
      ("/proj/.agent/skills" : String) = "/proj" ++ "/.agents/skills" ∨
      ("/proj/.agent/skills" : String) = "/proj" ++ "/.claude/skills")) ∧
    ((∀ l ∈ (syncSkills "/h" "2026-02-27" "/proj" "/proj/.agent/skills"
        noFaults ⟨[], ⟨"/x", 0⟩, 0⟩).1.links,
      l.linkPath = "/proj/.agent/skills" →
        l.status = Status.skip ∧ l.action = "is_source") ∧
    (∃ l ∈ (syncSkills "/h" "2026-02-27" "/proj" "/proj/.agent/skills"
        noFaults ⟨[], ⟨"/x", 0⟩, 0⟩).1.links,
      l.linkPath = "/proj/.agent/skills" ∧ l.status = Status.skip ∧
        l.action = "is_source") ∧
    (∀ q, underEqB "/proj/.agent/skills" q = true →
      lookupFS (syncSkills "/h" "2026-02-27" "/proj" "/proj/.agent/skills"
          noFaults ⟨[], ⟨"/x", 0⟩, 0⟩).2.fs q =
        lookupFS ([] : FS) q)) :=
  ⟨Or.inl (by decide),
   C10_syncSkills_source_untouched "/h" "2026-02-27" "/proj"
     "/proj/.agent/skills" ⟨[], ⟨"/x", 0⟩, 0⟩ (Or.inl (by decide))
     (by decide) (by decide) (by decide) (by decide)⟩

/-! ## Claim C8 -/

/-- Claim C8: every error thrown inside the `try` body of the link
reconciler - at any step, by any primitive, for any fault pattern and any
starting state - is caught by the reconciler and converted into a result
with status `error` and the thrown message in the `error` field, with the
state reached at the throw point; the reconciler itself is a total function
(no exception reaches the caller). -/
theorem C8_reconciler_catches_errors (home date target linkPath : String)
    (opts : SymlinkOpts) (f : Faults) (s : St) (e : String) (s1 : St)
    (h : ensureSymlinkGo target linkPath (opts.onConflict.getD "backup")
        (opts.name.getD "link") f
        { s with ctx := opts.backupContext.getD (createBackupContext home date) } =
      (.error e, s1)) :
    ensureSymlinkSafe home date target linkPath opts f s =
      ({ status := .error, action := "error", name := opts.name.getD "link",
         linkPath := linkPath, target := target, error := some e }, s1) := by
  simp only [ensureSymlinkSafe]
  rw [h]

/-- Witness for C8: a fault injected at the very first primitive (the
parent-directory creation) surfaces as a status-error result carrying the
thrown message. -/
theorem C8_witness :
    ensureSymlinkGo "/t" "/a/b" (({} : SymlinkOpts).onConflict.getD "backup")
        (({} : SymlinkOpts).name.getD "link")
        (fun n => if n = 0 then some "EIO" else none)
        { (⟨[], ⟨"/x", 0⟩, 0⟩ : St) with
          ctx := ({} : SymlinkOpts).backupContext.getD
            (createBackupContext "/h" "d") } =
      (.error "EIO", ⟨[], ⟨"/h/backups/d", 0⟩, 1⟩) ∧
    ensureSymlinkSafe "/h" "d" "/t" "/a/b" {}
        (fun n => if n = 0 then some "EIO" else none) ⟨[], ⟨"/x", 0⟩, 0⟩ =
      ({ status := .error, action := "error", name := "link",
         linkPath := "/a/b", target := "/t", error := some "EIO" },
       ⟨[], ⟨"/h/backups/d", 0⟩, 1⟩) :=
  ⟨by rfl,
   C8_reconciler_catches_errors "/h" "d" "/t" "/a/b" {}
     (fun n => if n = 0 then some "EIO" else none) ⟨[], ⟨"/x", 0⟩, 0⟩
     "EIO" ⟨[], ⟨"/h/backups/d", 0⟩, 1⟩ (by rfl)⟩

/-! ## Claim C4 -/

/-- Counterexample to claim C4: the flattened backup name additionally
strips the leading double underscore (`.replace(/^__/, '')` in
`movePathToBackup`), so nothing exists at the claim's path
`<home>/backups/<today>/__proj__.claude__skills_0/x.md` even though the
scenario otherwise succeeds. -/
theorem C4_counterexample :
    c4Run.1.status = Status.ok ∧ c4Run.1.action = "backup_and_link" ∧
    lookupFS c4Run.2.fs
      "/h/backups/2026-02-27/__proj__.claude__skills_0/x.md" = none ∧
    lookupFS c4Run.2.fs
      "/h/backups/2026-02-27/__proj__.claude__skills_0" = none := by
  decide

/-- Claim C4 as amended: the backup scenario returns
`{status: ok, action: "backup_and_link"}`, afterwards
`/proj/.claude/skills` is a symlink to `/proj/.agent/skills`, and the
displaced directory sits at
`<home>/backups/<today>/proj__.claude__skills_0` (flattened name with the
leading double underscore stripped, counter value 0), so its file `x.md`
exists there. -/
theorem C4_backup_scenario :
    c4Run.1.status = Status.ok ∧ c4Run.1.action = "backup_and_link" ∧
    lookupFS c4Run.2.fs "/proj/.claude/skills" =
      some (Entry.symlink "/proj/.agent/skills") ∧
    lookupFS c4Run.2.fs "/h/backups/2026-02-27/proj__.claude__skills_0" =
      some Entry.dir ∧
    lookupFS c4Run.2.fs
      "/h/backups/2026-02-27/proj__.claude__skills_0/x.md" = some Entry.file ∧
    flattenPathName "/proj/.claude/skills" = "proj__.claude__skills" := by
  decide

end AgentSync
